import Mathlib

/-!
Verification of the reflection-path engine of `bevy_reflect_utils`.

The development shallowly embeds the library's core (src/types.rs,
src/enum_utils.rs, src/reflect_component.rs, src/reflect_resource.rs,
src/reflect_target.rs, src/reflect_trait.rs, src/shared.rs).  The external
collaborators (the bevy object store and reflection machinery) are modelled
at their interface: reflected values form a small value grammar `RVal`,
the world is an association list of entities/components and resources, and
the reflected operations of bevy (`reflect_partial_eq`, `set`, `GetPath`)
are explicit functions over `RVal`.
-/

/-- src/types.rs: `ReflectSetSuccess`. -/
inductive ReflectSetSuccess where
  | Changed
  | NoChanges
deriving DecidableEq, Repr

/-- src/types.rs: `ReflectError`. -/
inductive ReflectError where
  | EntityNotFound
  | TypeRegistrationNotFound
  | TypeRegistrationInvalidCast
  | EntityDoesNotHaveComponent
  | ReflectPath (msg : String)
  | InvalidDowncast
  | NoDefaultValue
  | SetValueFailed
  | ResourceDoesNotExist
  | Serialize (msg : String)
  | Deserialize (msg : String)
  | PartialEq
  | NoAccess
deriving DecidableEq, Repr

/-- src/enum_utils.rs: `EnumDirection`. -/
inductive EnumDirection where
  | Forward
  | Backward
deriving DecidableEq, Repr

/-- Rust `TypeId`: an opaque process-unique identifier of a concrete type. -/
abbrev TypeId := Nat

/-- Bevy `Entity`: an opaque identifier of a record in the store. -/
abbrev EntityId := Nat

/-- Identifier of a custom reflected trait (the `T : TypeData` type key used
by src/reflect_trait.rs). -/
abbrev TraitId := Nat

/-- The payload shape of one enum variant (bevy `VariantInfo`): unit,
positional fields with their type ids, or named fields with their type ids. -/
inductive VariantShape where
  | unit
  | tuple (fieldTypes : List TypeId)
  | strukt (fields : List (String × TypeId))
deriving DecidableEq, Repr

/-- Bevy `VariantInfo`: variant name plus payload shape. -/
structure VariantInfoM where
  name : String
  shape : VariantShape
deriving DecidableEq, Repr

/-- One segment of a dotted field path (bevy `GetPath` access): a named
struct field or a positional index. -/
inductive PathSeg where
  | field (name : String)
  | index (i : Nat)
deriving DecidableEq, Repr

mutual
/-- A reflected runtime value (the `dyn Reflect` interface of bevy, modelled
at its interface).  `i64` and `boolV` are primitive leaves with reflected
equality; `valueK` is an opaque value-kind leaf of type `tid` whose
`reflect_partial_eq` is undefined (returns `None`); `strukt` is a struct with
named fields; `tupleV` a tuple; `enumV` an enum value carrying its
represented type info (the variant list), the active variant index and the
active variant's payload values. -/
inductive RVal where
  | i64 (n : Int)
  | boolV (b : Bool)
  | valueK (tid : TypeId) (tag : Nat)
  | strukt (fields : RFields)
  | tupleV (items : RList)
  | enumV (variants : List VariantInfoM) (idx : Nat) (payload : RList)

/-- A list of reflected values (tuple items / enum payload). -/
inductive RList where
  | nil
  | cons (hd : RVal) (tl : RList)

/-- A list of named reflected fields (struct fields). -/
inductive RFields where
  | nil
  | cons (name : String) (hd : RVal) (tl : RFields)
end

/-- Length of an `RList`. -/
def RList.length : RList → Nat
  | .nil => 0
  | .cons _ tl => 1 + tl.length

/-- Positional lookup in an `RList` (bevy tuple/variant field access). -/
def rlistGet : RList → Nat → Option RVal
  | .nil, _ => none
  | .cons hd _, 0 => some hd
  | .cons _ tl, n + 1 => rlistGet tl n

/-- Positional update in an `RList`, first `n` positions untouched. -/
def rlistSet : RList → Nat → RVal → RList
  | .nil, _, _ => .nil
  | .cons _ tl, 0, v => .cons v tl
  | .cons hd tl, n + 1, v => .cons hd (rlistSet tl n v)

/-- Named lookup in an `RFields` (bevy struct field access); first match. -/
def rfieldsGet : RFields → String → Option RVal
  | .nil, _ => none
  | .cons n hd tl, m => if n = m then some hd else rfieldsGet tl m

/-- Named update in an `RFields`; replaces the first matching field only. -/
def rfieldsSet : RFields → String → RVal → RFields
  | .nil, _, _ => .nil
  | .cons n hd tl, m, v =>
      if n = m then .cons n v tl else .cons n hd (rfieldsSet tl m v)

/-- The variant info of the active variant of an enum value, if in range. -/
def variantAt (variants : List VariantInfoM) (i : Nat) : Option VariantInfoM :=
  variants.get? i

mutual
/-- Bevy's `Reflect::reflect_partial_eq`, modelled over the value grammar:
primitive leaves with `PartialEq` compare their contents (`Some(false)` on a
downcast mismatch), opaque `valueK` leaves have no reflected equality
(`None`, the default), structs/tuples/enums compare structurally, a `None`
or `Some(false)` in any field propagating out. -/
def reflectPartialEq : RVal → RVal → Option Bool
  | .i64 a, b =>
      match b with
      | .i64 b' => some (decide (a = b'))
      | _ => some false
  | .boolV a, b =>
      match b with
      | .boolV b' => some (decide (a = b'))
      | _ => some false
  | .valueK _ _, _ => none
  | .strukt fs, b =>
      match b with
      | .strukt gs => rfieldsPartialEq fs gs
      | _ => some false
  | .tupleV xs, b =>
      match b with
      | .tupleV ys => rlistPartialEq xs ys
      | _ => some false
  | .enumV vs i p, b =>
      match b with
      | .enumV vs' i' p' =>
          if (variantAt vs i).map VariantInfoM.name
              = (variantAt vs' i').map VariantInfoM.name then
            rlistPartialEq p p'
          else some false
      | _ => some false

/-- Pointwise `reflect_partial_eq` over tuple items / enum payloads. -/
def rlistPartialEq : RList → RList → Option Bool
  | .nil, .nil => some true
  | .cons x xs, .cons y ys =>
      match reflectPartialEq x y with
      | some true => rlistPartialEq xs ys
      | r => r
  | _, _ => some false

/-- Pointwise `reflect_partial_eq` over named struct fields. -/
def rfieldsPartialEq : RFields → RFields → Option Bool
  | .nil, .nil => some true
  | .cons n x xs, .cons n' y ys =>
      if n = n' then
        match reflectPartialEq x y with
        | some true => rfieldsPartialEq xs ys
        | r => r
      else some false
  | _, _ => some false
end

mutual
/-- Whether two reflected values have the same concrete Rust type: this is
the success condition of `Reflect::set` (`*self = *value.downcast()?`),
which replaces the receiver iff the argument has the same `TypeId`.  An
enum's type is identified by its represented variant list. -/
def sameType : RVal → RVal → Bool
  | .i64 _, b => match b with | .i64 _ => true | _ => false
  | .boolV _, b => match b with | .boolV _ => true | _ => false
  | .valueK t _, b => match b with | .valueK t' _ => t == t' | _ => false
  | .strukt fs, b =>
      match b with | .strukt gs => rfieldsSameType fs gs | _ => false
  | .tupleV xs, b =>
      match b with | .tupleV ys => rlistSameType xs ys | _ => false
  | .enumV vs _ _, b =>
      match b with | .enumV vs' _ _ => decide (vs = vs') | _ => false

/-- Pointwise type agreement of tuple items. -/
def rlistSameType : RList → RList → Bool
  | .nil, .nil => true
  | .cons x xs, .cons y ys => sameType x y && rlistSameType xs ys
  | _, _ => false

/-- Pointwise type agreement of named struct fields. -/
def rfieldsSameType : RFields → RFields → Bool
  | .nil, .nil => true
  | .cons n x xs, .cons n' y ys =>
      decide (n = n') && sameType x y && rfieldsSameType xs ys
  | _, _ => false
end

/-- Resolve one path segment on a value (bevy `GetPath` access): a named
field on a struct, a positional index on a tuple, and on an enum a field of
the *currently active* variant only (a named field for a struct variant, an
index for a tuple variant). -/
def resolveSeg : RVal → PathSeg → Option RVal
  | .strukt fs, .field n => rfieldsGet fs n
  | .tupleV xs, .index i => rlistGet xs i
  | .enumV vs i p, .field n =>
      match (variantAt vs i).map VariantInfoM.shape with
      | some (.strukt fields) =>
          match fields.findIdx? (fun f => f.1 = n) with
          | some k => rlistGet p k
          | none => none
      | _ => none
  | .enumV vs i p, .index k =>
      match (variantAt vs i).map VariantInfoM.shape with
      | some (.tuple _) => rlistGet p k
      | _ => none
  | _, _ => none

/-- Resolve a whole dotted path (bevy `reflect_path`). -/
def resolvePath : RVal → List PathSeg → Option RVal
  | v, [] => some v
  | v, seg :: rest =>
      match resolveSeg v seg with
      | some child => resolvePath child rest
      | none => none

/-- Write `newV` at the position a path resolves to, rebuilding the spine;
`none` exactly when resolution fails (models in-place mutation through
bevy's `reflect_path_mut`). -/
def updatePath : RVal → List PathSeg → RVal → Option RVal
  | _, [], newV => some newV
  | .strukt fs, .field n :: rest, newV =>
      match rfieldsGet fs n with
      | some child =>
          (updatePath child rest newV).map (fun c => .strukt (rfieldsSet fs n c))
      | none => none
  | .tupleV xs, .index i :: rest, newV =>
      match rlistGet xs i with
      | some child =>
          (updatePath child rest newV).map (fun c => .tupleV (rlistSet xs i c))
      | none => none
  | .enumV vs i p, .field n :: rest, newV =>
      match (variantAt vs i).map VariantInfoM.shape with
      | some (.strukt fields) =>
          match fields.findIdx? (fun f => f.1 = n) with
          | some k =>
              match rlistGet p k with
              | some child =>
                  (updatePath child rest newV).map
                    (fun c => .enumV vs i (rlistSet p k c))
              | none => none
          | none => none
      | _ => none
  | .enumV vs i p, .index k :: rest, newV =>
      match (variantAt vs i).map VariantInfoM.shape with
      | some (.tuple _) =>
          match rlistGet p k with
          | some child =>
              (updatePath child rest newV).map
                (fun c => .enumV vs i (rlistSet p k c))
          | none => none
      | _ => none
  | _, _ :: _, _ => none

/-- First-match lookup in an association list keyed by `Nat` (entity and
type-id indexed maps of the external store and registry). -/
def alistGet {α : Type} : List (Nat × α) → Nat → Option α
  | [], _ => none
  | (k, v) :: rest, key => if k = key then some v else alistGet rest key

/-- First-match update in an association list; a no-op when the key is
absent (the engine never inserts, it only mutates in place). -/
def alistSet {α : Type} : List (Nat × α) → Nat → α → List (Nat × α)
  | [], _, _ => []
  | (k, v) :: rest, key, nv =>
      if k = key then (k, nv) :: rest else (k, v) :: alistSet rest key nv

/-- One entry of the type registry: the optional capability tables attached
to a `TypeId` (`ReflectComponent`, `ReflectResource`, `ReflectDefault`, and
the custom reflected-trait tables present for this type). -/
structure TypeRegistrationM where
  hasReflectComponent : Bool
  hasReflectResource : Bool
  defaultValue : Option RVal
  traits : List TraitId

/-- The bevy `TypeRegistry`, modelled at its interface: a map from `TypeId`
to its registration. -/
structure TypeRegistryM where
  regs : List (TypeId × TypeRegistrationM)

/-- One keyed record of the store: the components attached to an entity, in
attachment (archetype) order. -/
structure EntityRecord where
  comps : List (TypeId × RVal)

/-- The external object store plus registry (`bevy::World`, at its
interface): keyed records and process-wide singletons. -/
structure WorldM where
  registry : TypeRegistryM
  entities : List (EntityId × EntityRecord)
  resources : List (TypeId × RVal)

/-- Replace the value of component `tid` on entity `e` (in-place mutation
through `ReflectComponent::reflect_mut`); no-op when absent. -/
def setComponentValue (w : WorldM) (e : EntityId) (tid : TypeId) (v : RVal) : WorldM :=
  match alistGet w.entities e with
  | none => w
  | some erec =>
      { w with entities := alistSet w.entities e { erec with comps := alistSet erec.comps tid v } }

/-- Convenience read of a whole component value. -/
def componentValue (w : WorldM) (e : EntityId) (tid : TypeId) : Option RVal :=
  (alistGet w.entities e).bind (fun erec => alistGet erec.comps tid)

/-- src/reflect_component.rs: `reflect_component_read_path_from_world`
composed with `with_component_reflect_field` (the value is returned as the
reflected clone of the resolved sub-value; the typed downcast of the Rust
generic is the identity on this value model). -/
def reflect_component_read_path (w : WorldM) (entity : EntityId) (tid : TypeId)
    (path : List PathSeg) : Except ReflectError RVal :=
  match alistGet w.entities entity with
  | none => .error .EntityNotFound
  | some erec =>
      match alistGet w.registry.regs tid with
      | none => .error .TypeRegistrationNotFound
      | some reg =>
          if reg.hasReflectComponent = false then .error .TypeRegistrationInvalidCast
          else
            match alistGet erec.comps tid with
            | none => .error .EntityDoesNotHaveComponent
            | some root =>
                match resolvePath root path with
                | none => .error (.ReflectPath "path")
                | some fld => .ok fld

/-- src/reflect_component.rs: `with_reflect_component_field_mut_world`.  The
closure receives the resolved sub-value and leaves a (possibly unchanged)
value in place; the rebuilt world is returned alongside the closure's
result. -/
def with_reflect_component_field_mut_world {α : Type} (w : WorldM) (tid : TypeId)
    (entity : EntityId) (path : List PathSeg) (f : RVal → α × RVal) :
    Except ReflectError (α × WorldM) :=
  match alistGet w.registry.regs tid with
  | none => .error .TypeRegistrationNotFound
  | some reg =>
      if reg.hasReflectComponent = false then .error .TypeRegistrationInvalidCast
      else
        match alistGet w.entities entity with
        | none => .error .EntityNotFound
        | some erec =>
            match alistGet erec.comps tid with
            | none => .error .EntityDoesNotHaveComponent
            | some root =>
                match resolvePath root path with
                | none => .error (.ReflectPath "path")
                | some fld =>
                    let (a, fld') := f fld
                    match updatePath root path fld' with
                    | none => .error (.ReflectPath "path")
                    | some root' =>
                        let erec' := { erec with comps := alistSet erec.comps tid root' }
                        .ok (a, { w with entities := alistSet w.entities entity erec' })

/-- The equality-guarded write closure shared by
`reflect_component_set_path` and `reflect_resource_set_path`: compare the
stored sub-value against `value` with `reflect_partial_eq`; on `Some(true)`
report `NoChanges` and leave the value untouched, otherwise attempt
`Reflect::set`, reporting `Changed` on success and `SetValueFailed` when the
downcast is rejected. -/
def setFieldClosure (value : RVal) (fld : RVal) :
    Except ReflectError ReflectSetSuccess × RVal :=
  match reflectPartialEq fld value with
  | some true => (.ok .NoChanges, fld)
  | _ =>
      if sameType fld value then (.ok .Changed, value)
      else (.error .SetValueFailed, fld)

/-- src/reflect_component.rs: `reflect_component_set_path`. -/
def reflect_component_set_path (w : WorldM) (tid : TypeId) (entity : EntityId)
    (path : List PathSeg) (value : RVal) :
    Except ReflectError ReflectSetSuccess × WorldM :=
  match with_reflect_component_field_mut_world w tid entity path (setFieldClosure value) with
  | .error err => (.error err, w)
  | .ok (r, w') => (r, w')

/-- src/reflect_resource.rs: `reflect_resource_read_path` through
`with_resource_reflect_field` / `with_resource_reflect`. -/
def reflect_resource_read_path (w : WorldM) (tid : TypeId) (path : List PathSeg) :
    Except ReflectError RVal :=
  match alistGet w.registry.regs tid with
  | none => .error .TypeRegistrationNotFound
  | some reg =>
      if reg.hasReflectResource = false then .error .TypeRegistrationInvalidCast
      else
        match alistGet w.resources tid with
        | none => .error .ResourceDoesNotExist
        | some root =>
            match resolvePath root path with
            | none => .error (.ReflectPath "path")
            | some fld => .ok fld

/-- src/reflect_resource.rs: `with_resource_reflect_field_mut`. -/
def with_resource_reflect_field_mut {α : Type} (w : WorldM) (tid : TypeId)
    (path : List PathSeg) (f : RVal → α × RVal) : Except ReflectError (α × WorldM) :=
  match alistGet w.registry.regs tid with
  | none => .error .TypeRegistrationNotFound
  | some reg =>
      if reg.hasReflectResource = false then .error .TypeRegistrationInvalidCast
      else
        match alistGet w.resources tid with
        | none => .error .ResourceDoesNotExist
        | some root =>
            match resolvePath root path with
            | none => .error (.ReflectPath "path")
            | some fld =>
                let (a, fld') := f fld
                match updatePath root path fld' with
                | none => .error (.ReflectPath "path")
                | some root' => .ok (a, { w with resources := alistSet w.resources tid root' })

/-- src/reflect_resource.rs: `reflect_resource_set_path`. -/
def reflect_resource_set_path (w : WorldM) (tid : TypeId) (path : List PathSeg)
    (value : RVal) : Except ReflectError ReflectSetSuccess × WorldM :=
  match with_resource_reflect_field_mut w tid path (setFieldClosure value) with
  | .error err => (.error err, w)
  | .ok (r, w') => (r, w')

/-- src/enum_utils.rs: `get_next_index_in_direction`.  The Rust guard is
`length == 1 || index > length - 1` with `usize` operands and short-circuit
evaluation, so when `length == 0` the subtraction `length - 1` underflows;
that arithmetic fault is modelled as the `Except.error ()` outcome, every
defined outcome being `Except.ok` of the returned `Option<usize>`. -/
def get_next_index_in_direction (index length : Nat) (direction : EnumDirection)
    (wrap : Bool) : Except Unit (Option Nat) :=
  if length = 1 then .ok none
  else if length = 0 then .error ()
  else if index > length - 1 then .ok none
  else
    match direction with
    | .Forward =>
        if index < length - 1 then .ok (some (index + 1))
        else if wrap then .ok (some 0)
        else .ok none
    | .Backward =>
        if index > 0 then .ok (some (index - 1))
        else if wrap then .ok (some (length - 1))
        else .ok none

/-- src/shared.rs: `get_default_value_for` — the `ReflectDefault` capability
lookup. -/
def get_default_value_for (tr : TypeRegistryM) (tid : TypeId) : Option RVal :=
  (alistGet tr.regs tid).bind (fun reg => reg.defaultValue)

/-- Default-construct one value per field type id, failing with
`NoDefaultValue` on the first field whose type has no `ReflectDefault`
capability. -/
def defaultsForTypes (tr : TypeRegistryM) : List TypeId → Except ReflectError RList
  | [] => .ok .nil
  | tid :: rest =>
      match get_default_value_for tr tid with
      | none => .error .NoDefaultValue
      | some v =>
          match defaultsForTypes tr rest with
          | .ok tl => .ok (.cons v tl)
          | .error e => .error e

/-- src/shared.rs: `construct_default_enum_variant`.  A unit variant needs
no defaults; tuple and struct variants need one registered default per
field; a missing default aborts the whole construction with
`NoDefaultValue`.  The constructed `DynamicEnum` is represented by its
positional payload list. -/
def construct_default_enum_variant (variant : VariantInfoM) (tr : TypeRegistryM) :
    Except ReflectError RList :=
  match variant.shape with
  | .unit => .ok .nil
  | .tuple fieldTypes => defaultsForTypes tr fieldTypes
  | .strukt fields => defaultsForTypes tr (fields.map Prod.snd)

/-- src/enum_utils.rs: `NextEnumVariant`.  The `Ok` payload is the
constructed `DynamicEnum`, represented by the index of the target variant
(its name picks that variant on `apply`) and its default payload. -/
inductive NextEnumVariantM where
  | Ok (newIdx : Nat) (payload : RList)
  | NoChanges

/-- src/enum_utils.rs: `get_next_enum_variant`.  The outer `Option` layer
models the `usize` underflow panic of `get_next_index_in_direction`
(`none` = panic, reachable only for a variant count of zero); otherwise the
next index is computed, `variant_at` out-of-range collapses to `NoChanges`
via `and_then`, and the target variant is default-constructed. -/
def get_next_enum_variant (variants : List VariantInfoM) (idx : Nat)
    (tr : TypeRegistryM) (direction : EnumDirection) (wrap : Bool) :
    Option (Except ReflectError NextEnumVariantM) :=
  match get_next_index_in_direction idx variants.length direction wrap with
  | .error () => none
  | .ok none => some (.ok .NoChanges)
  | .ok (some newIdx) =>
      match variantAt variants newIdx with
      | none => some (.ok .NoChanges)
      | some vinfo =>
          match construct_default_enum_variant vinfo tr with
          | .ok payload => some (.ok (.Ok newIdx payload))
          | .error e => some (.error e)

/-- The closure body shared by `reflect_component_toggle_enum_variant` and
`reflect_resource_toggle_enum_variant`: downcast the resolved field to an
enum (`InvalidDowncast` otherwise), compute the next variant, and on `Ok`
apply the constructed `DynamicEnum` onto the field (switching its active
variant and payload) reporting `Changed`; `NoChanges` leaves the field
untouched.  The `Option` result layer propagates the modelled panic. -/
def toggleEnumClosure (tr : TypeRegistryM) (direction : EnumDirection) (wrap : Bool)
    (fld : RVal) : Option (Except ReflectError ReflectSetSuccess) × RVal :=
  match fld with
  | .enumV vs i p =>
      match get_next_enum_variant vs i tr direction wrap with
      | none => (none, .enumV vs i p)
      | some (.ok (.Ok newIdx payload)) => (some (.ok .Changed), .enumV vs newIdx payload)
      | some (.ok .NoChanges) => (some (.ok .NoChanges), .enumV vs i p)
      | some (.error e) => (some (.error e), .enumV vs i p)
  | other => (some (.error .InvalidDowncast), other)

/-- src/enum_utils.rs: `reflect_component_toggle_enum_variant`.  `none`
models the `usize` underflow panic inside the index computation. -/
def reflect_component_toggle_enum_variant (w : WorldM) (tid : TypeId)
    (entity : EntityId) (path : List PathSeg) (direction : EnumDirection)
    (wrap : Bool) : Option (Except ReflectError ReflectSetSuccess × WorldM) :=
  match with_reflect_component_field_mut_world w tid entity path
      (toggleEnumClosure w.registry direction wrap) with
  | .error err => some (.error err, w)
  | .ok (none, _) => none
  | .ok (some r, w') => some (r, w')

/-- src/enum_utils.rs: `reflect_resource_toggle_enum_variant`. -/
def reflect_resource_toggle_enum_variant (w : WorldM) (tid : TypeId)
    (path : List PathSeg) (direction : EnumDirection) (wrap : Bool) :
    Option (Except ReflectError ReflectSetSuccess × WorldM) :=
  match with_resource_reflect_field_mut w tid path
      (toggleEnumClosure w.registry direction wrap) with
  | .error err => some (.error err, w)
  | .ok (none, _) => none
  | .ok (some r, w') => some (r, w')

/-- src/reflect_target.rs: `ReflectKind`. -/
inductive ReflectKind where
  | component (entity : EntityId) (tid : TypeId)
  | resource (tid : TypeId)
deriving DecidableEq

/-- src/reflect_target.rs: `ReflectTarget` — the stable handle callers hold:
a location plus a field path. -/
structure ReflectTarget where
  kind : ReflectKind
  field_path : List PathSeg

/-- src/reflect_target.rs: `ReflectTarget::read_value`. -/
def ReflectTarget.read_value (t : ReflectTarget) (w : WorldM) : Except ReflectError RVal :=
  match t.kind with
  | .component entity tid => reflect_component_read_path w entity tid t.field_path
  | .resource tid => reflect_resource_read_path w tid t.field_path

/-- src/reflect_target.rs: `ReflectTarget::set_value`. -/
def ReflectTarget.set_value (t : ReflectTarget) (w : WorldM) (value : RVal) :
    Except ReflectError ReflectSetSuccess × WorldM :=
  match t.kind with
  | .component entity tid => reflect_component_set_path w tid entity t.field_path value
  | .resource tid => reflect_resource_set_path w tid t.field_path value

/-- src/reflect_target.rs: `ReflectTarget::toggle_reflect_enum` — both arms
pass `wrap = false` to the underlying cyclers. -/
def ReflectTarget.toggle_reflect_enum (t : ReflectTarget) (w : WorldM)
    (direction : EnumDirection) : Option (Except ReflectError ReflectSetSuccess × WorldM) :=
  match t.kind with
  | .component entity tid =>
      reflect_component_toggle_enum_variant w tid entity t.field_path direction false
  | .resource tid =>
      reflect_resource_toggle_enum_variant w tid t.field_path direction false

/-- Whether the registry exposes, for `tid`, both the custom trait table
`trId` (`get_type_data::<T>`) and the `ReflectComponent` capability — the
two filters of the trait resolution scans in src/reflect_trait.rs. -/
def traitMatch (tr : TypeRegistryM) (trId : TraitId) (tid : TypeId) : Bool :=
  match alistGet tr.regs tid with
  | none => false
  | some reg => reg.traits.contains trId && reg.hasReflectComponent

/-- The ordered sublist of an entity record's components whose types expose
the trait `trId` — the sequence the trait resolution engine visits. -/
def traitMatchingComps (tr : TypeRegistryM) (trId : TraitId)
    (erec : EntityRecord) : List (TypeId × RVal) :=
  erec.comps.filter (fun c => traitMatch tr trId c.1)

/-- Early-stopping fold of the trait callback over the matching components
(the `find` in `reflect_trait_iter`): the callback receives the state, the
matched type id (standing for the per-type trait table) and the reflected
value, and returns the new state plus `true` to keep iterating. -/
def traitIterGo {σ : Type} (tr : TypeRegistryM) (trId : TraitId)
    (cb : σ → TypeId → RVal → σ × Bool) :
    List (TypeId × RVal) → σ → σ
  | [], s => s
  | (tid, v) :: rest, s =>
      if traitMatch tr trId tid then
        let (s', cont) := cb s tid v
        if cont then traitIterGo tr trId cb rest s' else s'
      else traitIterGo tr trId cb rest s

/-- src/reflect_trait.rs: `reflect_trait_iter` — immutable scan over all
components of the entity whose type exposes the trait, in attachment order,
with early stop; `Ok` regardless of how many matched. -/
def reflect_trait_iter {σ : Type} (w : WorldM) (entity : EntityId) (trId : TraitId)
    (cb : σ → TypeId → RVal → σ × Bool) (s0 : σ) : Except ReflectError σ :=
  match alistGet w.entities entity with
  | none => .error .EntityNotFound
  | some erec => .ok (traitIterGo w.registry trId cb erec.comps s0)

/-- src/reflect_trait.rs: `reflect_trait_once` — wraps the user callback
with a `was_called` flag and stops after the first invocation; zero
invocations become `EntityDoesNotHaveComponent`. -/
def reflect_trait_once {σ : Type} (w : WorldM) (entity : EntityId) (trId : TraitId)
    (callback : σ → TypeId → RVal → σ) (s0 : σ) : Except ReflectError σ :=
  match reflect_trait_iter w entity trId
      (fun bs tid v => ((true, callback bs.2 tid v), false)) (false, s0) with
  | .error e => .error e
  | .ok (true, s) => .ok s
  | .ok (false, _) => .error .EntityDoesNotHaveComponent

/-- The loop of `reflect_trait_iter_mut`: the type ids are collected up
front, then for each id exposing the trait the component is re-fetched from
the current world (skipped via `if let` when absent), the callback's value
is written back, and a `false` continuation flag breaks the loop. -/
def traitIterMutGo {σ : Type} (tr : TypeRegistryM) (trId : TraitId)
    (entity : EntityId) (cb : σ → TypeId → RVal → σ × RVal × Bool) :
    List TypeId → WorldM → σ → Except ReflectError (σ × WorldM)
  | [], w, s => .ok (s, w)
  | tid :: rest, w, s =>
      if traitMatch tr trId tid then
        match alistGet w.entities entity with
        | none => .error .EntityNotFound
        | some erec =>
            match alistGet erec.comps tid with
            | none => traitIterMutGo tr trId entity cb rest w s
            | some v =>
                let (s', v', cont) := cb s tid v
                let w' := setComponentValue w entity tid v'
                if cont then traitIterMutGo tr trId entity cb rest w' s'
                else .ok (s', w')
      else traitIterMutGo tr trId entity cb rest w s

/-- src/reflect_trait.rs: `reflect_trait_iter_mut`. -/
def reflect_trait_iter_mut {σ : Type} (w : WorldM) (entity : EntityId) (trId : TraitId)
    (cb : σ → TypeId → RVal → σ × RVal × Bool) (s0 : σ) :
    Except ReflectError (σ × WorldM) :=
  match alistGet w.entities entity with
  | none => .error .EntityNotFound
  | some erec =>
      traitIterMutGo w.registry trId entity cb (erec.comps.map Prod.fst) w s0

/-- src/reflect_trait.rs: `reflect_trait_mut_expect_once`. -/
def reflect_trait_mut_expect_once {σ : Type} (w : WorldM) (entity : EntityId)
    (trId : TraitId) (callback : σ → TypeId → RVal → σ × RVal) (s0 : σ) :
    Except ReflectError (σ × WorldM) :=
  match reflect_trait_iter_mut w entity trId
      (fun bs tid v =>
        let (s', v') := callback bs.2 tid v
        ((true, s'), v', false)) (false, s0) with
  | .error e => .error e
  | .ok ((true, s), w') => .ok (s, w')
  | .ok ((false, _), _) => .error .EntityDoesNotHaveComponent

/-- The per-type body of the copy loop in
`reflect_copy_shared_component_props`: registration and `ReflectComponent`
lookups (each failure aborting the whole call), a fresh clone of the
source's whole value, and a whole-value apply onto the target's value —
skipped silently when the target no longer has the component. -/
def copySharedGo (target source : EntityId) :
    List TypeId → WorldM → Except ReflectError Unit × WorldM
  | [], w => (.ok (), w)
  | tid :: rest, w =>
      match alistGet w.registry.regs tid with
      | none => (.error .TypeRegistrationNotFound, w)
      | some reg =>
          if reg.hasReflectComponent = false then (.error .TypeRegistrationInvalidCast, w)
          else
            match alistGet w.entities source with
            | none => (.error .EntityNotFound, w)
            | some srcRec =>
                match alistGet srcRec.comps tid with
                | none => (.error .EntityDoesNotHaveComponent, w)
                | some v =>
                    match alistGet w.entities target with
                    | none => (.error .EntityNotFound, w)
                    | some tgtRec =>
                        match alistGet tgtRec.comps tid with
                        | none => copySharedGo target source rest w
                        | some _ =>
                            copySharedGo target source rest (setComponentValue w target tid v)

/-- The candidate list of `reflect_copy_shared_component_props`: the
source's component type ids, in archetype order, kept when the target also
has the type, the type is registered, and the caller's filter accepts it. -/
def sharedCopyCandidates (w : WorldM) (srcRec tgtRec : EntityRecord)
    (type_id_filter : TypeId → Bool) : List TypeId :=
  (srcRec.comps.map Prod.fst).filter (fun tid =>
    (alistGet tgtRec.comps tid).isSome
    && (alistGet w.registry.regs tid).isSome
    && type_id_filter tid)

/-- src/reflect_component.rs: `reflect_copy_shared_component_props`.  The
candidate list is computed once, then each candidate is copied in turn. -/
def reflect_copy_shared_component_props (w : WorldM) (target source : EntityId)
    (type_id_filter : TypeId → Bool) : Except ReflectError Unit × WorldM :=
  match alistGet w.entities source with
  | none => (.error .EntityNotFound, w)
  | some srcRec =>
      match alistGet w.entities target with
      | none => (.error .EntityNotFound, w)
      | some tgtRec =>
          copySharedGo target source
            (sharedCopyCandidates w srcRec tgtRec type_id_filter) w

/-- Iterate `reflect_component_toggle_enum_variant` a number of times,
collecting the per-step results (the shape of the spec's cyclicity
property); a modelled panic at any step propagates. -/
def toggleNTimes (tid : TypeId) (entity : EntityId) (path : List PathSeg)
    (direction : EnumDirection) (wrap : Bool) :
    Nat → WorldM → Option (WorldM × List (Except ReflectError ReflectSetSuccess))
  | 0, w => some (w, [])
  | k + 1, w =>
      match reflect_component_toggle_enum_variant w tid entity path direction wrap with
      | none => none
      | some (r, w') =>
          match toggleNTimes tid entity path direction wrap k w' with
          | none => none
          | some (wf, rs) => some (wf, r :: rs)

/-- Example registry entry: a component type with no further capabilities. -/
def regComponentOnly : TypeRegistrationM :=
  { hasReflectComponent := true, hasReflectResource := false
    defaultValue := none, traits := [] }

/-- Example world for the guarded-write claims: entity `1` carries a
component of type `0` that is a struct with one integer field `n = 5`. -/
def wC1 : WorldM :=
  { registry := { regs := [(0, regComponentOnly)] }
    entities := [(1, { comps := [(0, .strukt (.cons "n" (.i64 5) .nil))] })]
    resources := [] }

/-- Target addressing the integer field `n` of component `0` on entity `1`. -/
def tC1 : ReflectTarget := { kind := .component 1 0, field_path := [.field "n"] }

/-- Example world whose targeted field is an opaque value-kind leaf, i.e. a
value whose reflected equality is undefined. -/
def wC3 : WorldM :=
  { registry := { regs := [(0, regComponentOnly)] }
    entities := [(1, { comps := [(0, .strukt (.cons "v" (.valueK 9 0) .nil))] })]
    resources := [] }

/-- Target addressing the equality-undefined field `v` on entity `1`. -/
def tC3 : ReflectTarget := { kind := .component 1 0, field_path := [.field "v"] }

/-- Whether every field of a variant has a registered default-construction
capability (the success condition of `construct_default_enum_variant`). -/
def variantDefaultsOk (tr : TypeRegistryM) (vi : VariantInfoM) : Bool :=
  match vi.shape with
  | .unit => true
  | .tuple ts => ts.all (fun t => (get_default_value_for tr t).isSome)
  | .strukt fs => fs.all (fun f => (get_default_value_for tr f.2).isSome)

/-- Example variant list: a two-variant enum, unit variant `A` and tuple
variant `B` with one field of type `5`. -/
def vsAB : List VariantInfoM :=
  [{ name := "A", shape := .unit }, { name := "B", shape := .tuple [5] }]

/-- Registry entry for field type `5`: not a component, but carries a
`ReflectDefault` capability producing `0`. -/
def regFieldWithDefault : TypeRegistrationM :=
  { hasReflectComponent := false, hasReflectResource := false
    defaultValue := some (.i64 0), traits := [] }

/-- Example world for the enum-cycling claims: entity `1` carries component
type `0`, a struct whose field `state` is the two-variant enum currently at
variant index 0; the payload field type `5` has a registered default. -/
def wC4 : WorldM :=
  { registry := { regs := [(0, regComponentOnly), (5, regFieldWithDefault)] }
    entities := [(1, { comps := [(0, .strukt (.cons "state" (.enumV vsAB 0 .nil) .nil))] })]
    resources := [] }

/-- As `wC4`, but the enum sits at its last variant (index 1). -/
def wC9 : WorldM :=
  { registry := { regs := [(0, regComponentOnly), (5, regFieldWithDefault)] }
    entities := [(1, { comps :=
      [(0, .strukt (.cons "state" (.enumV vsAB 1 (.cons (.i64 0) .nil)) .nil))] })]
    resources := [] }

/-- Target addressing the enum field `state` on entity `1`. -/
def tC9 : ReflectTarget := { kind := .component 1 0, field_path := [.field "state"] }

/-- The active variant index of an enum value. -/
def rvalVariantIdx : RVal → Option Nat
  | .enumV _ j _ => some j
  | _ => none

/-- Example variant list with an unsatisfiable payload: variant `C` has one
field of type `7`, which is not registered at all. -/
def vsAC : List VariantInfoM :=
  [{ name := "A", shape := .unit }, { name := "C", shape := .tuple [7] }]

/-- Example world for the missing-default claim: the enum field sits at the
unit variant `A`; cycling forward targets variant `C`, whose field type `7`
has no default capability. -/
def wC7 : WorldM :=
  { registry := { regs := [(0, regComponentOnly)] }
    entities := [(1, { comps := [(0, .strukt (.cons "state" (.enumV vsAC 0 .nil) .nil))] })]
    resources := [] }

/-- Registry entry for a component type exposing the custom trait `3`. -/
def regTraitComponent : TypeRegistrationM :=
  { hasReflectComponent := true, hasReflectResource := false
    defaultValue := none, traits := [3] }

/-- Example world for the trait-dispatch claim: entity `1` carries component
type `2` (no trait) and component type `0` (exposing trait `3`); entity `4`
carries only the traitless type. -/
def wC6 : WorldM :=
  { registry := { regs := [(0, regTraitComponent), (2, regComponentOnly)] }
    entities := [(1, { comps := [(2, .boolV true), (0, .i64 7)] }),
                 (4, { comps := [(2, .boolV true)] })]
    resources := [] }

/-- Registry entry for a type registered with no capability tables at all
(in particular no whole-value `ReflectComponent` capability). -/
def regNoCap : TypeRegistrationM :=
  { hasReflectComponent := false, hasReflectResource := false
    defaultValue := none, traits := [] }

/-- Example world refuting the unamended bulk-copy claim: both entities
share type `5` (registered but without the `ReflectComponent` capability)
and type `0` (fully reflectable); source `2` lists type `5` first. -/
def wC5 : WorldM :=
  { registry := { regs := [(0, regComponentOnly), (5, regNoCap)] }
    entities := [(1, { comps := [(5, .i64 9), (0, .i64 2)] }),
                 (2, { comps := [(5, .i64 9), (0, .i64 1)] })]
    resources := [] }

/-- Example world for the amended bulk-copy claim: target `1` has types
`{0, 9}`, source `2` has `{0, 7}`; only type `0` is shared and registered. -/
def wC5b : WorldM :=
  { registry := { regs := [(0, regComponentOnly)] }
    entities := [(1, { comps := [(0, .i64 2), (9, .i64 5)] }),
                 (2, { comps := [(0, .i64 1), (7, .i64 3)] })]
    resources := [] }

theorem alistGet_alistSet_self {α : Type} (l : List (Nat × α)) (k : Nat) (v : α)
    (h : alistGet l k = some v) : alistSet l k v = l := by
  induction l with
  | nil => simp [alistGet] at h
  | cons hd tl ih =>
      obtain ⟨k0, v0⟩ := hd
      by_cases hk : k0 = k
      · subst hk
        simp [alistGet] at h
        simp [alistSet, h]
      · simp [alistGet, hk] at h
        simp [alistSet, hk, ih h]

theorem alistGet_alistSet_same {α : Type} (l : List (Nat × α)) (k : Nat) (u v : α)
    (h : alistGet l k = some u) : alistGet (alistSet l k v) k = some v := by
  induction l with
  | nil => simp [alistGet] at h
  | cons hd tl ih =>
      obtain ⟨k0, v0⟩ := hd
      by_cases hk : k0 = k
      · subst hk
        simp [alistSet, alistGet]
      · simp [alistGet, hk] at h
        simp [alistSet, alistGet, hk, ih h]

theorem alistGet_alistSet_ne {α : Type} (l : List (Nat × α)) (k k' : Nat) (v : α)
    (h : k ≠ k') : alistGet (alistSet l k v) k' = alistGet l k' := by
  induction l with
  | nil => simp [alistSet]
  | cons hd tl ih =>
      obtain ⟨k0, v0⟩ := hd
      by_cases hk : k0 = k
      · subst hk
        simp [alistSet, alistGet, h]
      · simp [alistSet, alistGet, hk, ih]

theorem alistGet_alistSet_isSome {α : Type} (l : List (Nat × α)) (k k' : Nat) (v : α) :
    (alistGet (alistSet l k v) k').isSome = (alistGet l k').isSome := by
  induction l with
  | nil => simp [alistSet]
  | cons hd tl ih =>
      obtain ⟨k0, v0⟩ := hd
      by_cases hk : k0 = k
      · subst hk
        by_cases hk' : k0 = k'
        · subst hk'; simp [alistSet, alistGet]
        · simp [alistSet, alistGet, hk']
      · by_cases hk' : k0 = k'
        · subst hk'; simp [alistSet, alistGet, hk]
        · simp [alistSet, alistGet, hk, hk', ih]

theorem rlistSet_get_self : ∀ (xs : RList) (i : Nat) (x : RVal),
    rlistGet xs i = some x → rlistSet xs i x = xs
  | .nil, i, x, h => by simp [rlistGet] at h
  | .cons hd tl, 0, x, h => by
      simp [rlistGet] at h
      simp [rlistSet, h]
  | .cons hd tl, n + 1, x, h => by
      simp only [rlistGet] at h
      simp [rlistSet, rlistSet_get_self tl n x h]

theorem rlistGet_rlistSet_same : ∀ (xs : RList) (i : Nat) (x v : RVal),
    rlistGet xs i = some x → rlistGet (rlistSet xs i v) i = some v
  | .nil, i, x, v, h => by simp [rlistGet] at h
  | .cons hd tl, 0, x, v, h => by simp [rlistSet, rlistGet]
  | .cons hd tl, n + 1, x, v, h => by
      simp only [rlistGet] at h
      simp [rlistSet, rlistGet, rlistGet_rlistSet_same tl n x v h]

theorem rfieldsSet_get_self : ∀ (fs : RFields) (n : String) (x : RVal),
    rfieldsGet fs n = some x → rfieldsSet fs n x = fs
  | .nil, n, x, h => by simp [rfieldsGet] at h
  | .cons m hd tl, n, x, h => by
      by_cases hm : m = n
      · subst hm
        simp [rfieldsGet] at h
        simp [rfieldsSet, h]
      · simp only [rfieldsGet, if_neg hm] at h
        simp [rfieldsSet, hm, rfieldsSet_get_self tl n x h]

theorem rfieldsGet_rfieldsSet_same : ∀ (fs : RFields) (n : String) (x v : RVal),
    rfieldsGet fs n = some x → rfieldsGet (rfieldsSet fs n v) n = some v
  | .nil, n, x, v, h => by simp [rfieldsGet] at h
  | .cons m hd tl, n, x, v, h => by
      by_cases hm : m = n
      · subst hm; simp [rfieldsSet, rfieldsGet]
      · simp only [rfieldsGet, if_neg hm] at h
        simp [rfieldsSet, rfieldsGet, hm, rfieldsGet_rfieldsSet_same tl n x v h]

mutual
theorem reflectPartialEq_refl : ∀ (v : RVal),
    reflectPartialEq v v = some true ∨ reflectPartialEq v v = none
  | .i64 a => by simp [reflectPartialEq]
  | .boolV b => by simp [reflectPartialEq]
  | .valueK t g => by simp [reflectPartialEq]
  | .strukt fs => by simpa [reflectPartialEq] using rfieldsPartialEq_refl fs
  | .tupleV xs => by simpa [reflectPartialEq] using rlistPartialEq_refl xs
  | .enumV vs i pl => by simpa [reflectPartialEq] using rlistPartialEq_refl pl

theorem rlistPartialEq_refl : ∀ (xs : RList),
    rlistPartialEq xs xs = some true ∨ rlistPartialEq xs xs = none
  | .nil => by simp [rlistPartialEq]
  | .cons x xs => by
      rcases reflectPartialEq_refl x with h | h
      · simpa [rlistPartialEq, h] using rlistPartialEq_refl xs
      · simp [rlistPartialEq, h]

theorem rfieldsPartialEq_refl : ∀ (fs : RFields),
    rfieldsPartialEq fs fs = some true ∨ rfieldsPartialEq fs fs = none
  | .nil => by simp [rfieldsPartialEq]
  | .cons n x xs => by
      rcases reflectPartialEq_refl x with h | h
      · simpa [rfieldsPartialEq, h] using rfieldsPartialEq_refl xs
      · simp [rfieldsPartialEq, h]
end

mutual
theorem sameType_refl : ∀ (v : RVal), sameType v v = true
  | .i64 _ => by simp [sameType]
  | .boolV _ => by simp [sameType]
  | .valueK t g => by simp [sameType]
  | .strukt fs => by simpa [sameType] using rfieldsSameType_refl fs
  | .tupleV xs => by simpa [sameType] using rlistSameType_refl xs
  | .enumV vs i pl => by simp [sameType]

theorem rlistSameType_refl : ∀ (xs : RList), rlistSameType xs xs = true
  | .nil => by simp [rlistSameType]
  | .cons x xs => by simp [rlistSameType, sameType_refl x, rlistSameType_refl xs]

theorem rfieldsSameType_refl : ∀ (fs : RFields), rfieldsSameType fs fs = true
  | .nil => by simp [rfieldsSameType]
  | .cons n x xs => by simp [rfieldsSameType, sameType_refl x, rfieldsSameType_refl xs]
end

theorem updatePath_resolve_self : ∀ (p : List PathSeg) (v f : RVal),
    resolvePath v p = some f → updatePath v p f = some v
  | [], v, f, h => by
      simp [resolvePath] at h
      simp [updatePath, h]
  | seg :: rest, v, f, h => by
      cases v with
      | i64 a => cases seg <;> simp [resolvePath, resolveSeg] at h
      | boolV b => cases seg <;> simp [resolvePath, resolveSeg] at h
      | valueK t g => cases seg <;> simp [resolvePath, resolveSeg] at h
      | strukt fs =>
          cases seg with
          | field n =>
              cases hg : rfieldsGet fs n with
              | none => simp [resolvePath, resolveSeg, hg] at h
              | some child =>
                  have hrec : resolvePath child rest = some f := by
                    simpa [resolvePath, resolveSeg, hg] using h
                  simp [updatePath, hg, updatePath_resolve_self rest child f hrec,
                    rfieldsSet_get_self fs n child hg]
          | index i => simp [resolvePath, resolveSeg] at h
      | tupleV xs =>
          cases seg with
          | field n => simp [resolvePath, resolveSeg] at h
          | index i =>
              cases hg : rlistGet xs i with
              | none => simp [resolvePath, resolveSeg, hg] at h
              | some child =>
                  have hrec : resolvePath child rest = some f := by
                    simpa [resolvePath, resolveSeg, hg] using h
                  simp [updatePath, hg, updatePath_resolve_self rest child f hrec,
                    rlistSet_get_self xs i child hg]
      | enumV vs i pl =>
          cases seg with
          | field n =>
              cases hs : (variantAt vs i).map VariantInfoM.shape with
              | none => simp [resolvePath, resolveSeg, hs] at h
              | some shp =>
                  cases shp with
                  | unit => simp [resolvePath, resolveSeg, hs] at h
                  | tuple ts => simp [resolvePath, resolveSeg, hs] at h
                  | strukt fields =>
                      cases hf : fields.findIdx? (fun f => f.1 = n) with
                      | none => simp [resolvePath, resolveSeg, hs, hf] at h
                      | some k =>
                          cases hg : rlistGet pl k with
                          | none => simp [resolvePath, resolveSeg, hs, hf, hg] at h
                          | some child =>
                              have hrec : resolvePath child rest = some f := by
                                simpa [resolvePath, resolveSeg, hs, hf, hg] using h
                              simp [updatePath, hs, hf, hg,
                                updatePath_resolve_self rest child f hrec,
                                rlistSet_get_self pl k child hg]
          | index k =>
              cases hs : (variantAt vs i).map VariantInfoM.shape with
              | none => simp [resolvePath, resolveSeg, hs] at h
              | some shp =>
                  cases shp with
                  | unit => simp [resolvePath, resolveSeg, hs] at h
                  | strukt fields => simp [resolvePath, resolveSeg, hs] at h
                  | tuple ts =>
                      cases hg : rlistGet pl k with
                      | none => simp [resolvePath, resolveSeg, hs, hg] at h
                      | some child =>
                          have hrec : resolvePath child rest = some f := by
                            simpa [resolvePath, resolveSeg, hs, hg] using h
                          simp [updatePath, hs, hg,
                            updatePath_resolve_self rest child f hrec,
                            rlistSet_get_self pl k child hg]

theorem resolvePath_updatePath : ∀ (p : List PathSeg) (v nv v' : RVal),
    updatePath v p nv = some v' → resolvePath v' p = some nv
  | [], v, nv, v', h => by
      simp [updatePath] at h
      simp [resolvePath, h.symm]
  | seg :: rest, v, nv, v', h => by
      cases v with
      | i64 a => cases seg <;> simp [updatePath] at h
      | boolV b => cases seg <;> simp [updatePath] at h
      | valueK t g => cases seg <;> simp [updatePath] at h
      | strukt fs =>
          cases seg with
          | field n =>
              cases hg : rfieldsGet fs n with
              | none => simp [updatePath, hg] at h
              | some child =>
                  simp only [updatePath, hg, Option.map_eq_some'] at h
                  obtain ⟨c, hc, hv'⟩ := h
                  subst hv'
                  simp [resolvePath, resolveSeg,
                    rfieldsGet_rfieldsSet_same fs n child c hg,
                    resolvePath_updatePath rest child nv c hc]
          | index i => simp [updatePath] at h
      | tupleV xs =>
          cases seg with
          | field n => simp [updatePath] at h
          | index i =>
              cases hg : rlistGet xs i with
              | none => simp [updatePath, hg] at h
              | some child =>
                  simp only [updatePath, hg, Option.map_eq_some'] at h
                  obtain ⟨c, hc, hv'⟩ := h
                  subst hv'
                  simp [resolvePath, resolveSeg,
                    rlistGet_rlistSet_same xs i child c hg,
                    resolvePath_updatePath rest child nv c hc]
      | enumV vs i pl =>
          cases seg with
          | field n =>
              cases hs : (variantAt vs i).map VariantInfoM.shape with
              | none => simp [updatePath, hs] at h
              | some shp =>
                  cases shp with
                  | unit => simp [updatePath, hs] at h
                  | tuple ts => simp [updatePath, hs] at h
                  | strukt fields =>
                      cases hf : fields.findIdx? (fun f => f.1 = n) with
                      | none => simp [updatePath, hs, hf] at h
                      | some k =>
                          cases hg : rlistGet pl k with
                          | none => simp [updatePath, hs, hf, hg] at h
                          | some child =>
                              simp only [updatePath, hs, hf, hg, Option.map_eq_some'] at h
                              obtain ⟨c, hc, hv'⟩ := h
                              subst hv'
                              simp [resolvePath, resolveSeg, hs, hf,
                                rlistGet_rlistSet_same pl k child c hg,
                                resolvePath_updatePath rest child nv c hc]
          | index k =>
              cases hs : (variantAt vs i).map VariantInfoM.shape with
              | none => simp [updatePath, hs] at h
              | some shp =>
                  cases shp with
                  | unit => simp [updatePath, hs] at h
                  | strukt fields => simp [updatePath, hs] at h
                  | tuple ts =>
                      cases hg : rlistGet pl k with
                      | none => simp [updatePath, hs, hg] at h
                      | some child =>
                          simp only [updatePath, hs, hg, Option.map_eq_some'] at h
                          obtain ⟨c, hc, hv'⟩ := h
                          subst hv'
                          simp [resolvePath, resolveSeg, hs,
                            rlistGet_rlistSet_same pl k child c hg,
                            resolvePath_updatePath rest child nv c hc]

theorem updatePath_some_of_resolve : ∀ (p : List PathSeg) (v f nv : RVal),
    resolvePath v p = some f → ∃ v', updatePath v p nv = some v'
  | [], v, f, nv, h => by simp [updatePath]
  | seg :: rest, v, f, nv, h => by
      cases v with
      | i64 a => cases seg <;> simp [resolvePath, resolveSeg] at h
      | boolV b => cases seg <;> simp [resolvePath, resolveSeg] at h
      | valueK t g => cases seg <;> simp [resolvePath, resolveSeg] at h
      | strukt fs =>
          cases seg with
          | field n =>
              cases hg : rfieldsGet fs n with
              | none => simp [resolvePath, resolveSeg, hg] at h
              | some child =>
                  have hrec : resolvePath child rest = some f := by
                    simpa [resolvePath, resolveSeg, hg] using h
                  obtain ⟨c, hc⟩ := updatePath_some_of_resolve rest child f nv hrec
                  exact ⟨.strukt (rfieldsSet fs n c), by simp [updatePath, hg, hc]⟩
          | index i => simp [resolvePath, resolveSeg] at h
      | tupleV xs =>
          cases seg with
          | field n => simp [resolvePath, resolveSeg] at h
          | index i =>
              cases hg : rlistGet xs i with
              | none => simp [resolvePath, resolveSeg, hg] at h
              | some child =>
                  have hrec : resolvePath child rest = some f := by
                    simpa [resolvePath, resolveSeg, hg] using h
                  obtain ⟨c, hc⟩ := updatePath_some_of_resolve rest child f nv hrec
                  exact ⟨.tupleV (rlistSet xs i c), by simp [updatePath, hg, hc]⟩
      | enumV vs i pl =>
          cases seg with
          | field n =>
              cases hs : (variantAt vs i).map VariantInfoM.shape with
              | none => simp [resolvePath, resolveSeg, hs] at h
              | some shp =>
                  cases shp with
                  | unit => simp [resolvePath, resolveSeg, hs] at h
                  | tuple ts => simp [resolvePath, resolveSeg, hs] at h
                  | strukt fields =>
                      cases hf : fields.findIdx? (fun f => f.1 = n) with
                      | none => simp [resolvePath, resolveSeg, hs, hf] at h
                      | some k =>
                          cases hg : rlistGet pl k with
                          | none => simp [resolvePath, resolveSeg, hs, hf, hg] at h
                          | some child =>
                              have hrec : resolvePath child rest = some f := by
                                simpa [resolvePath, resolveSeg, hs, hf, hg] using h
                              obtain ⟨c, hc⟩ :=
                                updatePath_some_of_resolve rest child f nv hrec
                              exact ⟨.enumV vs i (rlistSet pl k c),
                                by simp [updatePath, hs, hf, hg, hc]⟩
          | index k =>
              cases hs : (variantAt vs i).map VariantInfoM.shape with
              | none => simp [resolvePath, resolveSeg, hs] at h
              | some shp =>
                  cases shp with
                  | unit => simp [resolvePath, resolveSeg, hs] at h
                  | strukt fields => simp [resolvePath, resolveSeg, hs] at h
                  | tuple ts =>
                      cases hg : rlistGet pl k with
                      | none => simp [resolvePath, resolveSeg, hs, hg] at h
                      | some child =>
                          have hrec : resolvePath child rest = some f := by
                            simpa [resolvePath, resolveSeg, hs, hg] using h
                          obtain ⟨c, hc⟩ :=
                            updatePath_some_of_resolve rest child f nv hrec
                          exact ⟨.enumV vs i (rlistSet pl k c),
                            by simp [updatePath, hs, hg, hc]⟩

theorem reflect_component_read_path_ok_iff {w : WorldM} {e : EntityId} {tid : TypeId}
    {path : List PathSeg} {v : RVal} :
    reflect_component_read_path w e tid path = .ok v ↔
    ∃ erec reg root, alistGet w.entities e = some erec ∧
      alistGet w.registry.regs tid = some reg ∧ reg.hasReflectComponent = true ∧
      alistGet erec.comps tid = some root ∧ resolvePath root path = some v := by
  constructor
  · intro h
    unfold reflect_component_read_path at h
    split at h
    · simp at h
    next erec hent =>
      split at h
      · simp at h
      next reg hreg =>
        split at h
        · simp at h
        next hrc =>
          split at h
          · simp at h
          next root hcomp =>
            split at h
            · simp at h
            next fld hres =>
              cases h
              refine ⟨erec, reg, root, hent, hreg, ?_, hcomp, hres⟩
              revert hrc
              cases reg.hasReflectComponent <;> simp
  · rintro ⟨erec, reg, root, hent, hreg, hrc, hcomp, hres⟩
    simp [reflect_component_read_path, hent, hreg, hrc, hcomp, hres]

theorem reflect_resource_read_path_ok_iff {w : WorldM} {tid : TypeId}
    {path : List PathSeg} {v : RVal} :
    reflect_resource_read_path w tid path = .ok v ↔
    ∃ reg root, alistGet w.registry.regs tid = some reg ∧
      reg.hasReflectResource = true ∧ alistGet w.resources tid = some root ∧
      resolvePath root path = some v := by
  constructor
  · intro h
    unfold reflect_resource_read_path at h
    split at h
    · simp at h
    next reg hreg =>
      split at h
      · simp at h
      next hrr =>
        split at h
        · simp at h
        next root hcomp =>
          split at h
          · simp at h
          next fld hres =>
            cases h
            refine ⟨reg, root, hreg, ?_, hcomp, hres⟩
            revert hrr
            cases reg.hasReflectResource <;> simp
  · rintro ⟨reg, root, hreg, hrr, hcomp, hres⟩
    simp [reflect_resource_read_path, hreg, hrr, hcomp, hres]

theorem reflect_component_set_path_noChanges {w : WorldM} {tid : TypeId} {e : EntityId}
    {path : List PathSeg} {value : RVal} {reg : TypeRegistrationM} {erec : EntityRecord}
    {root fld : RVal}
    (hreg : alistGet w.registry.regs tid = some reg) (hrc : reg.hasReflectComponent = true)
    (hent : alistGet w.entities e = some erec) (hcomp : alistGet erec.comps tid = some root)
    (hres : resolvePath root path = some fld)
    (heq : reflectPartialEq fld value = some true) :
    reflect_component_set_path w tid e path value = (.ok .NoChanges, w) := by
  have hupd := updatePath_resolve_self path root fld hres
  simp [reflect_component_set_path, with_reflect_component_field_mut_world,
    hreg, hrc, hent, hcomp, hres, setFieldClosure, heq, hupd,
    alistGet_alistSet_self _ _ _ hcomp, alistGet_alistSet_self _ _ _ hent]

theorem reflect_component_set_path_changed {w : WorldM} {tid : TypeId} {e : EntityId}
    {path : List PathSeg} {value : RVal} {reg : TypeRegistrationM} {erec : EntityRecord}
    {root fld : RVal}
    (hreg : alistGet w.registry.regs tid = some reg) (hrc : reg.hasReflectComponent = true)
    (hent : alistGet w.entities e = some erec) (hcomp : alistGet erec.comps tid = some root)
    (hres : resolvePath root path = some fld)
    (hne : reflectPartialEq fld value ≠ some true) (hst : sameType fld value = true) :
    ∃ w', reflect_component_set_path w tid e path value = (.ok .Changed, w') ∧
      reflect_component_read_path w' e tid path = .ok value ∧
      w'.registry = w.registry := by
  obtain ⟨root', hupd⟩ := updatePath_some_of_resolve path root fld value hres
  have hclosure : setFieldClosure value fld = (.ok .Changed, value) := by
    rcases hpe : reflectPartialEq fld value with _ | b
    · simp [setFieldClosure, hpe, hst]
    · cases b
      · simp [setFieldClosure, hpe, hst]
      · exact absurd hpe hne
  refine ⟨{ w with entities := alistSet w.entities e { erec with comps := alistSet erec.comps tid root' } }, ?_, ?_, rfl⟩
  · simp [reflect_component_set_path, with_reflect_component_field_mut_world,
      hreg, hrc, hent, hcomp, hres, hclosure, hupd]
  · exact reflect_component_read_path_ok_iff.mpr
      ⟨_, reg, root', alistGet_alistSet_same _ _ _ _ hent, hreg, hrc,
        alistGet_alistSet_same _ _ _ _ hcomp, resolvePath_updatePath path root value root' hupd⟩

theorem reflect_component_set_path_failed {w : WorldM} {tid : TypeId} {e : EntityId}
    {path : List PathSeg} {value : RVal} {reg : TypeRegistrationM} {erec : EntityRecord}
    {root fld : RVal}
    (hreg : alistGet w.registry.regs tid = some reg) (hrc : reg.hasReflectComponent = true)
    (hent : alistGet w.entities e = some erec) (hcomp : alistGet erec.comps tid = some root)
    (hres : resolvePath root path = some fld)
    (hne : reflectPartialEq fld value ≠ some true) (hst : sameType fld value = false) :
    reflect_component_set_path w tid e path value = (.error .SetValueFailed, w) := by
  have hupd := updatePath_resolve_self path root fld hres
  have hclosure : setFieldClosure value fld = (.error .SetValueFailed, fld) := by
    rcases hpe : reflectPartialEq fld value with _ | b
    · simp [setFieldClosure, hpe, hst]
    · cases b
      · simp [setFieldClosure, hpe, hst]
      · exact absurd hpe hne
  simp [reflect_component_set_path, with_reflect_component_field_mut_world,
    hreg, hrc, hent, hcomp, hres, hclosure, hupd,
    alistGet_alistSet_self _ _ _ hcomp, alistGet_alistSet_self _ _ _ hent]

theorem reflect_resource_set_path_noChanges {w : WorldM} {tid : TypeId}
    {path : List PathSeg} {value : RVal} {reg : TypeRegistrationM} {root fld : RVal}
    (hreg : alistGet w.registry.regs tid = some reg) (hrr : reg.hasReflectResource = true)
    (hcomp : alistGet w.resources tid = some root)
    (hres : resolvePath root path = some fld)
    (heq : reflectPartialEq fld value = some true) :
    reflect_resource_set_path w tid path value = (.ok .NoChanges, w) := by
  have hupd := updatePath_resolve_self path root fld hres
  simp [reflect_resource_set_path, with_resource_reflect_field_mut,
    hreg, hrr, hcomp, hres, setFieldClosure, heq, hupd,
    alistGet_alistSet_self _ _ _ hcomp]

theorem reflect_resource_set_path_changed {w : WorldM} {tid : TypeId}
    {path : List PathSeg} {value : RVal} {reg : TypeRegistrationM} {root fld : RVal}
    (hreg : alistGet w.registry.regs tid = some reg) (hrr : reg.hasReflectResource = true)
    (hcomp : alistGet w.resources tid = some root)
    (hres : resolvePath root path = some fld)
    (hne : reflectPartialEq fld value ≠ some true) (hst : sameType fld value = true) :
    ∃ w', reflect_resource_set_path w tid path value = (.ok .Changed, w') ∧
      reflect_resource_read_path w' tid path = .ok value ∧
      w'.registry = w.registry := by
  obtain ⟨root', hupd⟩ := updatePath_some_of_resolve path root fld value hres
  have hclosure : setFieldClosure value fld = (.ok .Changed, value) := by
    rcases hpe : reflectPartialEq fld value with _ | b
    · simp [setFieldClosure, hpe, hst]
    · cases b
      · simp [setFieldClosure, hpe, hst]
      · exact absurd hpe hne
  refine ⟨{ w with resources := alistSet w.resources tid root' }, ?_, ?_, rfl⟩
  · simp [reflect_resource_set_path, with_resource_reflect_field_mut,
      hreg, hrr, hcomp, hres, hclosure, hupd]
  · exact reflect_resource_read_path_ok_iff.mpr
      ⟨reg, root', hreg, hrr, alistGet_alistSet_same _ _ _ _ hcomp,
        resolvePath_updatePath path root value root' hupd⟩

theorem reflect_resource_set_path_failed {w : WorldM} {tid : TypeId}
    {path : List PathSeg} {value : RVal} {reg : TypeRegistrationM} {root fld : RVal}
    (hreg : alistGet w.registry.regs tid = some reg) (hrr : reg.hasReflectResource = true)
    (hcomp : alistGet w.resources tid = some root)
    (hres : resolvePath root path = some fld)
    (hne : reflectPartialEq fld value ≠ some true) (hst : sameType fld value = false) :
    reflect_resource_set_path w tid path value = (.error .SetValueFailed, w) := by
  have hupd := updatePath_resolve_self path root fld hres
  have hclosure : setFieldClosure value fld = (.error .SetValueFailed, fld) := by
    rcases hpe : reflectPartialEq fld value with _ | b
    · simp [setFieldClosure, hpe, hst]
    · cases b
      · simp [setFieldClosure, hpe, hst]
      · exact absurd hpe hne
  simp [reflect_resource_set_path, with_resource_reflect_field_mut,
    hreg, hrr, hcomp, hres, hclosure, hupd,
    alistGet_alistSet_self _ _ _ hcomp]

/-- Claim C1: for every target whose path resolves to a mutable field and
every value, `set` compares the value against the current field with
reflected equality: equal means `NoChanges` with no write; unequal or
undefined equality means a whole-value assignment, returning `Changed` on
success (after which `read` returns the new value) and `SetValueFailed`
when the assignment is rejected. -/
theorem C1_set_guarded_write (w : WorldM) (t : ReflectTarget) (fld value : RVal)
    (hread : t.read_value w = .ok fld) :
    (reflectPartialEq fld value = some true →
      t.set_value w value = (.ok .NoChanges, w))
    ∧ (reflectPartialEq fld value ≠ some true → sameType fld value = true →
      (t.set_value w value).1 = .ok .Changed ∧
      t.read_value (t.set_value w value).2 = .ok value)
    ∧ (reflectPartialEq fld value ≠ some true → sameType fld value = false →
      t.set_value w value = (.error .SetValueFailed, w)) := by
  obtain ⟨kind, path⟩ := t
  cases kind with
  | component e tid =>
      obtain ⟨erec, reg, root, hent, hreg, hrc, hcomp, hres⟩ :=
        reflect_component_read_path_ok_iff.mp
          (by simpa [ReflectTarget.read_value] using hread)
      refine ⟨fun heq => ?_, fun hne hst => ?_, fun hne hst => ?_⟩
      · simpa [ReflectTarget.set_value] using
          reflect_component_set_path_noChanges hreg hrc hent hcomp hres heq
      · obtain ⟨w', hset, hread2, _⟩ :=
          reflect_component_set_path_changed hreg hrc hent hcomp hres hne hst
        exact ⟨by simp [ReflectTarget.set_value, hset],
          by simp [ReflectTarget.set_value, ReflectTarget.read_value, hset, hread2]⟩
      · simpa [ReflectTarget.set_value] using
          reflect_component_set_path_failed hreg hrc hent hcomp hres hne hst
  | resource tid =>
      obtain ⟨reg, root, hreg, hrr, hcomp, hres⟩ :=
        reflect_resource_read_path_ok_iff.mp
          (by simpa [ReflectTarget.read_value] using hread)
      refine ⟨fun heq => ?_, fun hne hst => ?_, fun hne hst => ?_⟩
      · simpa [ReflectTarget.set_value] using
          reflect_resource_set_path_noChanges hreg hrr hcomp hres heq
      · obtain ⟨w', hset, hread2, _⟩ :=
          reflect_resource_set_path_changed hreg hrr hcomp hres hne hst
        exact ⟨by simp [ReflectTarget.set_value, hset],
          by simp [ReflectTarget.set_value, ReflectTarget.read_value, hset, hread2]⟩
      · simpa [ReflectTarget.set_value] using
          reflect_resource_set_path_failed hreg hrr hcomp hres hne hst

/-- Claim C1, witness: on the concrete world with an integer field holding
`5`, `set 5` is `NoChanges` (value kept), `set 6` is `Changed`, and a
subsequent `read` yields `6`. -/
theorem C1_set_guarded_write_witness :
    tC1.read_value wC1 = .ok (.i64 5)
    ∧ tC1.set_value wC1 (.i64 5) = (.ok .NoChanges, wC1)
    ∧ (tC1.set_value wC1 (.i64 6)).1 = .ok .Changed
    ∧ tC1.read_value (tC1.set_value wC1 (.i64 6)).2 = .ok (.i64 6) := by
  have hread : tC1.read_value wC1 = .ok (.i64 5) := by
    simp [tC1, wC1, ReflectTarget.read_value, reflect_component_read_path, alistGet,
      regComponentOnly, resolvePath, resolveSeg, rfieldsGet]
  have h5 := C1_set_guarded_write wC1 tC1 (.i64 5) (.i64 5) hread
  have h6 := C1_set_guarded_write wC1 tC1 (.i64 5) (.i64 6) hread
  have hne : reflectPartialEq (.i64 5) (.i64 6) ≠ some true := by
    simp [reflectPartialEq]
  have hst : sameType (RVal.i64 5) (.i64 6) = true := by simp [sameType]
  exact ⟨hread, h5.1 (by simp [reflectPartialEq]),
    (h6.2.1 hne hst).1, (h6.2.1 hne hst).2⟩

/-- Claim C3 (amended): writing back the value just read leaves the world —
hence the stored value — unchanged in every case; the reported status is
`NoChanges` whenever the value's reflected self-equality is defined
(`Some(true)`), but is `Changed` when reflected equality is undefined for
the value (`None`), because the equality guard only skips the write on a
positive answer. -/
theorem C3_write_back_read (w : WorldM) (t : ReflectTarget) (fld : RVal)
    (hread : t.read_value w = .ok fld) :
    (reflectPartialEq fld fld = some true ∨ reflectPartialEq fld fld = none)
    ∧ (reflectPartialEq fld fld = some true → t.set_value w fld = (.ok .NoChanges, w))
    ∧ (reflectPartialEq fld fld = none → t.set_value w fld = (.ok .Changed, w)) := by
  obtain ⟨kind, path⟩ := t
  cases kind with
  | component e tid =>
      obtain ⟨erec, reg, root, hent, hreg, hrc, hcomp, hres⟩ :=
        reflect_component_read_path_ok_iff.mp
          (by simpa [ReflectTarget.read_value] using hread)
      have hupd := updatePath_resolve_self path root fld hres
      refine ⟨reflectPartialEq_refl fld, fun heq => ?_, fun hnone => ?_⟩
      · simpa [ReflectTarget.set_value] using
          reflect_component_set_path_noChanges hreg hrc hent hcomp hres heq
      · have hclosure : setFieldClosure fld fld = (.ok .Changed, fld) := by
          simp [setFieldClosure, hnone, sameType_refl fld]
        simp [ReflectTarget.set_value, reflect_component_set_path,
          with_reflect_component_field_mut_world, hreg, hrc, hent, hcomp, hres,
          hclosure, hupd, alistGet_alistSet_self _ _ _ hcomp,
          alistGet_alistSet_self _ _ _ hent]
  | resource tid =>
      obtain ⟨reg, root, hreg, hrr, hcomp, hres⟩ :=
        reflect_resource_read_path_ok_iff.mp
          (by simpa [ReflectTarget.read_value] using hread)
      have hupd := updatePath_resolve_self path root fld hres
      refine ⟨reflectPartialEq_refl fld, fun heq => ?_, fun hnone => ?_⟩
      · simpa [ReflectTarget.set_value] using
          reflect_resource_set_path_noChanges hreg hrr hcomp hres heq
      · have hclosure : setFieldClosure fld fld = (.ok .Changed, fld) := by
          simp [setFieldClosure, hnone, sameType_refl fld]
        simp [ReflectTarget.set_value, reflect_resource_set_path,
          with_resource_reflect_field_mut, hreg, hrr, hcomp, hres,
          hclosure, hupd, alistGet_alistSet_self _ _ _ hcomp]

/-- Claim C3, counterexample: for the target addressing an equality-undefined
(opaque value-kind) field, `set(target, read(target))` returns `Changed`,
not `NoChanges` — the claim's "always returns `NoChanges`" fails (the stored
value is still left identical). -/
theorem C3_counterexample :
    tC3.read_value wC3 = .ok (.valueK 9 0)
    ∧ tC3.set_value wC3 (.valueK 9 0) = (.ok .Changed, wC3)
    ∧ (Except.ok ReflectSetSuccess.Changed : Except ReflectError ReflectSetSuccess)
        ≠ .ok .NoChanges := by
  refine ⟨?_, ?_, by simp⟩
  · simp [tC3, wC3, ReflectTarget.read_value, reflect_component_read_path, alistGet,
      regComponentOnly, resolvePath, resolveSeg, rfieldsGet]
  · simp [tC3, wC3, ReflectTarget.set_value, reflect_component_set_path,
      with_reflect_component_field_mut_world, alistGet, regComponentOnly,
      resolvePath, resolveSeg, rfieldsGet, setFieldClosure, reflectPartialEq,
      sameType, updatePath, rfieldsSet, alistSet]

/-- Claim C3, witness for the amended statement: the defined-equality case
(`NoChanges`, world untouched) at the integer field, and the
undefined-equality case (`Changed`, world still untouched) at the opaque
field. -/
theorem C3_write_back_read_witness :
    tC1.set_value wC1 (.i64 5) = (.ok .NoChanges, wC1)
    ∧ tC3.set_value wC3 (.valueK 9 0) = (.ok .Changed, wC3) := by
  have hread1 : tC1.read_value wC1 = .ok (.i64 5) := by
    simp [tC1, wC1, ReflectTarget.read_value, reflect_component_read_path, alistGet,
      regComponentOnly, resolvePath, resolveSeg, rfieldsGet]
  have hread3 : tC3.read_value wC3 = .ok (.valueK 9 0) := by
    simp [tC3, wC3, ReflectTarget.read_value, reflect_component_read_path, alistGet,
      regComponentOnly, resolvePath, resolveSeg, rfieldsGet]
  exact ⟨(C3_write_back_read wC1 tC1 (.i64 5) hread1).2.1 (by simp [reflectPartialEq]),
    (C3_write_back_read wC3 tC3 (.valueK 9 0) hread3).2.2 (by simp [reflectPartialEq])⟩

/-- Claim C2: for a positive variant count (every represented enum value has
at least one variant), the next-index computation follows exactly the
specified algorithm: `NoChanges` (`none`) for a single variant or an
out-of-range index, otherwise step forward/backward with optional
wrap-around, never an arithmetic fault (always `Except.ok`). -/
theorem C2_next_index_algorithm (i n : Nat) (d : EnumDirection) (wrap : Bool)
    (h : 1 ≤ n) :
    get_next_index_in_direction i n d wrap =
      if n = 1 ∨ n ≤ i then .ok none
      else
        match d with
        | .Forward =>
            if i < n - 1 then .ok (some (i + 1))
            else if wrap then .ok (some 0) else .ok none
        | .Backward =>
            if 0 < i then .ok (some (i - 1))
            else if wrap then .ok (some (n - 1)) else .ok none := by
  unfold get_next_index_in_direction
  by_cases h1 : n = 1
  · simp [h1]
  · have h0 : ¬ n = 0 := by omega
    by_cases h2 : n ≤ i
    · have hgt : i > n - 1 := by omega
      simp [h1, h0, h2, hgt]
    · have hgt : ¬ i > n - 1 := by omega
      simp [h1, h0, h2, hgt]

/-- Claim C2, witness: two variants, index 0, forward without wrap steps to
index 1. -/
theorem C2_next_index_algorithm_witness :
    get_next_index_in_direction 0 2 .Forward false = .ok (some 1) := by
  simpa using C2_next_index_algorithm 0 2 .Forward false (by omega)

/-- Claim C8: whenever the next-index computation produces a new index, that
index differs from the current one. -/
theorem C8_new_index_differs (i n j : Nat) (d : EnumDirection) (wrap : Bool)
    (h : get_next_index_in_direction i n d wrap = .ok (some j)) : j ≠ i := by
  unfold get_next_index_in_direction at h
  split at h
  · simp at h
  split at h
  · simp at h
  split at h
  · simp at h
  split at h
  · split at h
    · simp at h
      omega
    · split at h
      · simp at h
        omega
      · simp at h
  · split at h
    · simp at h
      omega
    · split at h
      · simp at h
        omega
      · simp at h

/-- Claim C8, witness: from index 0 of 2 variants, forward produces index 1,
which differs from 0. -/
theorem C8_new_index_differs_witness :
    get_next_index_in_direction 0 2 .Forward false = .ok (some 1) ∧ (1 : Nat) ≠ 0 :=
  ⟨by simp [get_next_index_in_direction],
    C8_new_index_differs 0 2 1 .Forward false (by simp [get_next_index_in_direction])⟩

theorem get_next_index_ok_of_pos (i n : Nat) (d : EnumDirection) (wrap : Bool)
    (hn : 1 ≤ n) : ∃ r, get_next_index_in_direction i n d wrap = .ok r := by
  unfold get_next_index_in_direction
  by_cases h1 : n = 1
  · simp [h1]
  · have h0 : ¬ n = 0 := by omega
    by_cases h2 : i > n - 1
    · simp [h1, h0, h2]
    · cases d
      · by_cases h3 : i < n - 1
        · simp [h1, h0, h2, h3]
        · cases wrap <;> simp [h1, h0, h2, h3]
      · by_cases h3 : i > 0
        · simp [h1, h0, h2, h3]
        · cases wrap <;> simp [h1, h0, h2, h3]

theorem get_next_enum_variant_ne_none (vs : List VariantInfoM) (i : Nat)
    (tr : TypeRegistryM) (d : EnumDirection) (wrap : Bool) (hn : 0 < vs.length) :
    get_next_enum_variant vs i tr d wrap ≠ none := by
  obtain ⟨r, hr⟩ := get_next_index_ok_of_pos i vs.length d wrap hn
  unfold get_next_enum_variant
  rw [hr]
  cases r with
  | none => simp
  | some newIdx =>
      rcases hv : variantAt vs newIdx with _ | vinfo
      · simp [hv]
      · rcases hc : construct_default_enum_variant vinfo tr with pay | err <;>
          simp [hv, hc]

theorem reflect_component_toggle_panic {w : WorldM} {tid : TypeId} {e : EntityId}
    {path : List PathSeg} {d : EnumDirection} {wrap : Bool} {reg : TypeRegistrationM}
    {erec : EntityRecord} {root : RVal} {vs : List VariantInfoM} {i : Nat} {pl : RList}
    (hreg : alistGet w.registry.regs tid = some reg) (hrc : reg.hasReflectComponent = true)
    (hent : alistGet w.entities e = some erec) (hcomp : alistGet erec.comps tid = some root)
    (hres : resolvePath root path = some (.enumV vs i pl))
    (hg : get_next_enum_variant vs i w.registry d wrap = none) :
    reflect_component_toggle_enum_variant w tid e path d wrap = none := by
  have hupd := updatePath_resolve_self path root (.enumV vs i pl) hres
  simp [reflect_component_toggle_enum_variant, with_reflect_component_field_mut_world,
    hreg, hrc, hent, hcomp, hres, toggleEnumClosure, hg, hupd]

theorem reflect_component_toggle_noChanges {w : WorldM} {tid : TypeId} {e : EntityId}
    {path : List PathSeg} {d : EnumDirection} {wrap : Bool} {reg : TypeRegistrationM}
    {erec : EntityRecord} {root : RVal} {vs : List VariantInfoM} {i : Nat} {pl : RList}
    (hreg : alistGet w.registry.regs tid = some reg) (hrc : reg.hasReflectComponent = true)
    (hent : alistGet w.entities e = some erec) (hcomp : alistGet erec.comps tid = some root)
    (hres : resolvePath root path = some (.enumV vs i pl))
    (hg : get_next_enum_variant vs i w.registry d wrap = some (.ok .NoChanges)) :
    reflect_component_toggle_enum_variant w tid e path d wrap = some (.ok .NoChanges, w) := by
  have hupd := updatePath_resolve_self path root (.enumV vs i pl) hres
  simp [reflect_component_toggle_enum_variant, with_reflect_component_field_mut_world,
    hreg, hrc, hent, hcomp, hres, toggleEnumClosure, hg, hupd,
    alistGet_alistSet_self _ _ _ hcomp, alistGet_alistSet_self _ _ _ hent]

theorem reflect_component_toggle_error {w : WorldM} {tid : TypeId} {e : EntityId}
    {path : List PathSeg} {d : EnumDirection} {wrap : Bool} {reg : TypeRegistrationM}
    {erec : EntityRecord} {root : RVal} {vs : List VariantInfoM} {i : Nat} {pl : RList}
    {err : ReflectError}
    (hreg : alistGet w.registry.regs tid = some reg) (hrc : reg.hasReflectComponent = true)
    (hent : alistGet w.entities e = some erec) (hcomp : alistGet erec.comps tid = some root)
    (hres : resolvePath root path = some (.enumV vs i pl))
    (hg : get_next_enum_variant vs i w.registry d wrap = some (.error err)) :
    reflect_component_toggle_enum_variant w tid e path d wrap = some (.error err, w) := by
  have hupd := updatePath_resolve_self path root (.enumV vs i pl) hres
  simp [reflect_component_toggle_enum_variant, with_reflect_component_field_mut_world,
    hreg, hrc, hent, hcomp, hres, toggleEnumClosure, hg, hupd,
    alistGet_alistSet_self _ _ _ hcomp, alistGet_alistSet_self _ _ _ hent]

theorem reflect_component_toggle_changed {w : WorldM} {tid : TypeId} {e : EntityId}
    {path : List PathSeg} {d : EnumDirection} {wrap : Bool} {reg : TypeRegistrationM}
    {erec : EntityRecord} {root : RVal} {vs : List VariantInfoM} {i : Nat} {pl : RList}
    {j : Nat} {pay : RList}
    (hreg : alistGet w.registry.regs tid = some reg) (hrc : reg.hasReflectComponent = true)
    (hent : alistGet w.entities e = some erec) (hcomp : alistGet erec.comps tid = some root)
    (hres : resolvePath root path = some (.enumV vs i pl))
    (hg : get_next_enum_variant vs i w.registry d wrap = some (.ok (.Ok j pay))) :
    ∃ w', reflect_component_toggle_enum_variant w tid e path d wrap
        = some (.ok .Changed, w') ∧
      reflect_component_read_path w' e tid path = .ok (.enumV vs j pay) ∧
      w'.registry = w.registry := by
  obtain ⟨root', hupd⟩ :=
    updatePath_some_of_resolve path root (.enumV vs i pl) (.enumV vs j pay) hres
  refine ⟨{ w with entities := alistSet w.entities e { erec with comps := alistSet erec.comps tid root' } }, ?_, ?_, rfl⟩
  · simp [reflect_component_toggle_enum_variant, with_reflect_component_field_mut_world,
      hreg, hrc, hent, hcomp, hres, toggleEnumClosure, hg, hupd]
  · exact reflect_component_read_path_ok_iff.mpr
      ⟨_, reg, root', alistGet_alistSet_same _ _ _ _ hent, hreg, hrc,
        alistGet_alistSet_same _ _ _ _ hcomp,
        resolvePath_updatePath path root (.enumV vs j pay) root' hupd⟩

theorem reflect_resource_toggle_noChanges {w : WorldM} {tid : TypeId}
    {path : List PathSeg} {d : EnumDirection} {wrap : Bool} {reg : TypeRegistrationM}
    {root : RVal} {vs : List VariantInfoM} {i : Nat} {pl : RList}
    (hreg : alistGet w.registry.regs tid = some reg) (hrr : reg.hasReflectResource = true)
    (hcomp : alistGet w.resources tid = some root)
    (hres : resolvePath root path = some (.enumV vs i pl))
    (hg : get_next_enum_variant vs i w.registry d wrap = some (.ok .NoChanges)) :
    reflect_resource_toggle_enum_variant w tid path d wrap = some (.ok .NoChanges, w) := by
  have hupd := updatePath_resolve_self path root (.enumV vs i pl) hres
  simp [reflect_resource_toggle_enum_variant, with_resource_reflect_field_mut,
    hreg, hrr, hcomp, hres, toggleEnumClosure, hg, hupd,
    alistGet_alistSet_self _ _ _ hcomp]

theorem defaultsForTypes_ok (tr : TypeRegistryM) :
    ∀ (ts : List TypeId), ts.all (fun t => (get_default_value_for tr t).isSome) = true →
    ∃ l, defaultsForTypes tr ts = .ok l
  | [], _ => ⟨.nil, rfl⟩
  | t :: rest, h => by
      simp only [List.all_cons, Bool.and_eq_true] at h
      rcases hd : get_default_value_for tr t with _ | v
      · rw [hd] at h
        simp at h
      · obtain ⟨l, hl⟩ := defaultsForTypes_ok tr rest h.2
        exact ⟨.cons v l, by simp [defaultsForTypes, hd, hl]⟩

theorem construct_default_ok_of_defaults (tr : TypeRegistryM) (vi : VariantInfoM)
    (h : variantDefaultsOk tr vi = true) :
    ∃ pay, construct_default_enum_variant vi tr = .ok pay := by
  unfold variantDefaultsOk at h
  unfold construct_default_enum_variant
  rcases hs : vi.shape with _ | ts | fs
  · exact ⟨.nil, rfl⟩
  · rw [hs] at h
    exact defaultsForTypes_ok tr ts h
  · rw [hs] at h
    refine defaultsForTypes_ok tr (fs.map Prod.snd) ?_
    simp only [List.all_eq_true] at h
    simp only [List.all_eq_true, List.mem_map]
    rintro t ⟨pr, hmem, rfl⟩
    exact h pr hmem

theorem get_next_index_forward_wrap (j n : Nat) (hj : j < n) (h2 : 2 ≤ n) :
    get_next_index_in_direction j n .Forward true = .ok (some ((j + 1) % n)) := by
  unfold get_next_index_in_direction
  have h1 : ¬ n = 1 := by omega
  have h0 : ¬ n = 0 := by omega
  have hgt : ¬ j > n - 1 := by omega
  by_cases hlt : j < n - 1
  · have : (j + 1) % n = j + 1 := Nat.mod_eq_of_lt (by omega)
    simp [h1, h0, hgt, hlt, this]
  · have hj' : j = n - 1 := by omega
    have : (j + 1) % n = 0 := by
      subst hj'
      have : n - 1 + 1 = n := by omega
      simp [this]
    simp [h1, h0, hgt, hlt, this]

theorem get_next_enum_variant_forward_wrap (vs : List VariantInfoM) (j : Nat)
    (tr : TypeRegistryM) (hj : j < vs.length) (h2 : 2 ≤ vs.length)
    (hdef : ∀ vi ∈ vs, variantDefaultsOk tr vi = true) :
    ∃ pay, get_next_enum_variant vs j tr .Forward true
      = some (.ok (.Ok ((j + 1) % vs.length) pay)) := by
  have hmod : (j + 1) % vs.length < vs.length := Nat.mod_lt _ (by omega)
  rcases hv : variantAt vs ((j + 1) % vs.length) with _ | vinfo
  · exact absurd (List.get?_eq_none.mp hv) (by omega)
  · have hmem : vinfo ∈ vs := List.get?_mem hv
    obtain ⟨pay, hpay⟩ := construct_default_ok_of_defaults tr vinfo (hdef vinfo hmem)
    refine ⟨pay, ?_⟩
    unfold get_next_enum_variant
    rw [get_next_index_forward_wrap j vs.length hj h2]
    simp [hv, hpay]

theorem get_next_index_boundary_no_wrap (i n : Nat) (d : EnumDirection)
    (h2 : 2 ≤ n)
    (hb : (d = .Forward ∧ i = n - 1) ∨ (d = .Backward ∧ i = 0)) :
    get_next_index_in_direction i n d false = .ok none := by
  unfold get_next_index_in_direction
  have h1 : ¬ n = 1 := by omega
  have h0 : ¬ n = 0 := by omega
  rcases hb with ⟨hd, hi⟩ | ⟨hd, hi⟩ <;> subst hd <;> subst hi
  · have hgt : ¬ n - 1 > n - 1 := by omega
    have hlt : ¬ n - 1 < n - 1 := by omega
    simp [h1, h0, hgt, hlt]
  · have hgt : ¬ 0 > n - 1 := by omega
    simp [h1, h0, hgt]

theorem get_next_enum_variant_boundary_no_wrap (vs : List VariantInfoM) (i : Nat)
    (tr : TypeRegistryM) (d : EnumDirection) (h2 : 2 ≤ vs.length)
    (hb : (d = .Forward ∧ i = vs.length - 1) ∨ (d = .Backward ∧ i = 0)) :
    get_next_enum_variant vs i tr d false = some (.ok .NoChanges) := by
  unfold get_next_enum_variant
  rw [get_next_index_boundary_no_wrap i vs.length d h2 hb]

/-- Claim C10: the index computation's out-of-range guard evaluates
`length - 1` in unsigned arithmetic, so a variant count of zero underflows
(the modelled arithmetic fault) instead of producing the no-change result;
any positive count — and every represented enum value has one — always
yields a defined `Ok` outcome, so the public enum-cycling operation never
reaches the underflow. -/
theorem C10_zero_length_underflow :
    (∀ (i : Nat) (d : EnumDirection) (wrap : Bool),
      get_next_index_in_direction i 0 d wrap = .error ())
    ∧ (∀ (i n : Nat) (d : EnumDirection) (wrap : Bool), 1 ≤ n →
      ∃ r, get_next_index_in_direction i n d wrap = .ok r)
    ∧ (∀ (w : WorldM) (tid : TypeId) (e : EntityId) (path : List PathSeg)
        (d : EnumDirection) (wrap : Bool) (vs : List VariantInfoM) (i : Nat) (pl : RList),
      reflect_component_read_path w e tid path = .ok (.enumV vs i pl) →
      0 < vs.length →
      reflect_component_toggle_enum_variant w tid e path d wrap ≠ none) := by
  refine ⟨fun i d wrap => ?_, fun i n d wrap hn => get_next_index_ok_of_pos i n d wrap hn,
    fun w tid e path d wrap vs i pl hread hn => ?_⟩
  · simp [get_next_index_in_direction]
  · obtain ⟨erec, reg, root, hent, hreg, hrc, hcomp, hres⟩ :=
      reflect_component_read_path_ok_iff.mp hread
    rcases hg : get_next_enum_variant vs i w.registry d wrap with _ | r
    · exact absurd hg (get_next_enum_variant_ne_none vs i w.registry d wrap hn)
    · cases r with
      | error err =>
          simp [reflect_component_toggle_error hreg hrc hent hcomp hres hg]
      | ok nv =>
          cases nv with
          | Ok j pay =>
              obtain ⟨w', hT, _, _⟩ :=
                reflect_component_toggle_changed hreg hrc hent hcomp hres hg
              simp [hT]
          | NoChanges =>
              simp [reflect_component_toggle_noChanges hreg hrc hent hcomp hres hg]

/-- Claim C10, witness: count 0 faults; count 2 yields an `Ok` outcome; the
component-level cycling call on a live two-variant enum value is defined. -/
theorem C10_zero_length_underflow_witness :
    get_next_index_in_direction 0 0 .Forward true = .error ()
    ∧ get_next_index_in_direction 0 2 .Forward true = .ok (some 1)
    ∧ reflect_component_toggle_enum_variant wC4 0 1 [.field "state"] .Forward true ≠ none := by
  have hread : reflect_component_read_path wC4 1 0 [.field "state"]
      = .ok (.enumV vsAB 0 .nil) := by
    simp [wC4, reflect_component_read_path, alistGet, regComponentOnly,
      regFieldWithDefault, resolvePath, resolveSeg, rfieldsGet]
  refine ⟨C10_zero_length_underflow.1 0 .Forward true,
    by simp [get_next_index_in_direction], ?_⟩
  exact C10_zero_length_underflow.2.2 wC4 0 1 [.field "state"] .Forward true vsAB 0 .nil
    hread (by simp [vsAB])

/-- Claim C9: `ReflectTarget::toggle_reflect_enum` always calls the cycler
with wrap disabled, so through this entry point a forward step from the
last variant, or a backward step from the first, of a multi-variant enum
returns `Ok(NoChanges)` and leaves the world unchanged. -/
theorem C9_toggle_no_wrap (w : WorldM) (t : ReflectTarget) (d : EnumDirection)
    (vs : List VariantInfoM) (i : Nat) (pl : RList)
    (hread : t.read_value w = .ok (.enumV vs i pl))
    (h2 : 2 ≤ vs.length)
    (hb : (d = .Forward ∧ i = vs.length - 1) ∨ (d = .Backward ∧ i = 0)) :
    t.toggle_reflect_enum w d = some (.ok .NoChanges, w) := by
  obtain ⟨kind, path⟩ := t
  cases kind with
  | component e tid =>
      obtain ⟨erec, reg, root, hent, hreg, hrc, hcomp, hres⟩ :=
        reflect_component_read_path_ok_iff.mp
          (by simpa [ReflectTarget.read_value] using hread)
      have hg := get_next_enum_variant_boundary_no_wrap vs i w.registry d h2 hb
      simpa [ReflectTarget.toggle_reflect_enum] using
        reflect_component_toggle_noChanges hreg hrc hent hcomp hres hg
  | resource tid =>
      obtain ⟨reg, root, hreg, hrr, hcomp, hres⟩ :=
        reflect_resource_read_path_ok_iff.mp
          (by simpa [ReflectTarget.read_value] using hread)
      have hg := get_next_enum_variant_boundary_no_wrap vs i w.registry d h2 hb
      simpa [ReflectTarget.toggle_reflect_enum] using
        reflect_resource_toggle_noChanges hreg hrr hcomp hres hg

/-- Claim C9, witness: on the two-variant enum at its last variant, the
target-level forward toggle reports `NoChanges` and the world is untouched. -/
theorem C9_toggle_no_wrap_witness :
    tC9.toggle_reflect_enum wC9 .Forward = some (.ok .NoChanges, wC9) := by
  have hread : tC9.read_value wC9 = .ok (.enumV vsAB 1 (.cons (.i64 0) .nil)) := by
    simp [tC9, wC9, ReflectTarget.read_value, reflect_component_read_path, alistGet,
      regComponentOnly, regFieldWithDefault, resolvePath, resolveSeg, rfieldsGet]
  exact C9_toggle_no_wrap wC9 tC9 .Forward vsAB 1 (.cons (.i64 0) .nil) hread
    (by simp [vsAB]) (Or.inl ⟨rfl, by simp [vsAB]⟩)

theorem toggleNTimes_forward_wrap (tid : TypeId) (e : EntityId) (path : List PathSeg)
    (tr : TypeRegistryM) (vs : List VariantInfoM)
    (hdef : ∀ vi ∈ vs, variantDefaultsOk tr vi = true) (h2 : 2 ≤ vs.length) :
    ∀ (k : Nat) (w : WorldM) (j : Nat) (pl : RList), w.registry = tr →
      reflect_component_read_path w e tid path = .ok (.enumV vs j pl) →
      j < vs.length →
      ∃ wf plf, toggleNTimes tid e path .Forward true k w
          = some (wf, List.replicate k (.ok .Changed))
        ∧ reflect_component_read_path wf e tid path
            = .ok (.enumV vs ((j + k) % vs.length) plf)
        ∧ wf.registry = tr
  | 0, w, j, pl, hr, hread, hj => by
      refine ⟨w, pl, rfl, ?_, hr⟩
      simpa [Nat.mod_eq_of_lt hj] using hread
  | k + 1, w, j, pl, hr, hread, hj => by
      obtain ⟨erec, reg, root, hent, hreg, hrc, hcomp, hres⟩ :=
        reflect_component_read_path_ok_iff.mp hread
      obtain ⟨pay, hg⟩ := get_next_enum_variant_forward_wrap vs j w.registry hj h2
        (by rw [hr]; exact hdef)
      obtain ⟨w', hT, hread', hr'⟩ :=
        reflect_component_toggle_changed hreg hrc hent hcomp hres hg
      have hj' : (j + 1) % vs.length < vs.length := Nat.mod_lt _ (by omega)
      obtain ⟨wf, plf, hTf, hreadf, hrf⟩ :=
        toggleNTimes_forward_wrap tid e path tr vs hdef h2 k w'
          ((j + 1) % vs.length) pay (by rw [hr', hr]) hread' hj'
      refine ⟨wf, plf, ?_, ?_, hrf⟩
      · simp [toggleNTimes, hT, hTf, List.replicate_succ]
      · have : ((j + 1) % vs.length + k) % vs.length = (j + (k + 1)) % vs.length := by
          rw [Nat.mod_add_mod]
          congr 1
          omega
        rwa [this] at hreadf

/-- Claim C4: on an enum field all of whose variants are
default-constructible, cycling `Forward` with wrap enabled exactly N times
(N the variant count) returns the field to its starting variant with every
step reporting `Changed`; for N = 1 the step reports `NoChanges`. -/
theorem C4_cycle_forward_wrap (w : WorldM) (tid : TypeId) (e : EntityId)
    (path : List PathSeg) (vs : List VariantInfoM) (j : Nat) (pl : RList)
    (hread : reflect_component_read_path w e tid path = .ok (.enumV vs j pl))
    (hj : j < vs.length)
    (hdef : ∀ vi ∈ vs, variantDefaultsOk w.registry vi = true) :
    (2 ≤ vs.length →
      ∃ wf plf, toggleNTimes tid e path .Forward true vs.length w
          = some (wf, List.replicate vs.length (.ok .Changed))
        ∧ reflect_component_read_path wf e tid path = .ok (.enumV vs j plf))
    ∧ (vs.length = 1 →
      toggleNTimes tid e path .Forward true 1 w = some (w, [.ok .NoChanges])) := by
  constructor
  · intro h2
    obtain ⟨wf, plf, hT, hreadf, _⟩ :=
      toggleNTimes_forward_wrap tid e path w.registry vs hdef h2 vs.length w j pl
        rfl hread hj
    refine ⟨wf, plf, hT, ?_⟩
    rwa [Nat.add_mod_right, Nat.mod_eq_of_lt hj] at hreadf
  · intro h1
    obtain ⟨erec, reg, root, hent, hreg, hrc, hcomp, hres⟩ :=
      reflect_component_read_path_ok_iff.mp hread
    have hg : get_next_enum_variant vs j w.registry .Forward true
        = some (.ok .NoChanges) := by
      unfold get_next_enum_variant
      simp [get_next_index_in_direction, h1]
    simp [toggleNTimes,
      reflect_component_toggle_noChanges hreg hrc hent hcomp hres hg]

/-- Claim C4, witness: on the concrete two-variant enum starting at variant
0, two wrap-enabled forward cycles report `Changed` twice and return the
field to variant index 0. -/
theorem C4_cycle_forward_wrap_witness :
    (toggleNTimes 0 1 [.field "state"] .Forward true 2 wC4).map Prod.snd
      = some [.ok .Changed, .ok .Changed]
    ∧ (toggleNTimes 0 1 [.field "state"] .Forward true 2 wC4).map
        (fun p => (reflect_component_read_path p.1 1 0 [.field "state"]).map rvalVariantIdx)
      = some (.ok (some 0)) := by
  have hread : reflect_component_read_path wC4 1 0 [.field "state"]
      = .ok (.enumV vsAB 0 .nil) := by
    simp [wC4, reflect_component_read_path, alistGet, regComponentOnly,
      regFieldWithDefault, resolvePath, resolveSeg, rfieldsGet]
  have hdef : ∀ vi ∈ vsAB, variantDefaultsOk wC4.registry vi = true := by
    intro vi hvi
    simp only [vsAB, List.mem_cons, List.mem_singleton] at hvi
    rcases hvi with rfl | hvi
    · rfl
    · rcases hvi with rfl | hvi
      · simp [variantDefaultsOk, get_default_value_for, wC4, alistGet,
          regFieldWithDefault, regComponentOnly]
      · simp at hvi
  have hlen : vsAB.length = 2 := by simp [vsAB]
  obtain ⟨wf, plf, hT, hreadf⟩ :=
    (C4_cycle_forward_wrap wC4 0 1 [.field "state"] vsAB 0 .nil hread
      (by simp [vsAB]) hdef).1 (by simp [vsAB])
  rw [hlen] at hT
  exact ⟨by simp [hT, List.replicate], by simp [hT, hreadf, Except.map, rvalVariantIdx]⟩

theorem defaultsForTypes_error (tr : TypeRegistryM) :
    ∀ (ts : List TypeId),
      ts.all (fun t => (get_default_value_for tr t).isSome) = false →
      defaultsForTypes tr ts = .error .NoDefaultValue
  | [], h => by simp at h
  | t :: rest, h => by
      rcases hd : get_default_value_for tr t with _ | v
      · simp [defaultsForTypes, hd]
      · have hrest : rest.all (fun t => (get_default_value_for tr t).isSome) = false := by
          simpa [List.all_cons, hd] using h
        simp [defaultsForTypes, hd, defaultsForTypes_error tr rest hrest]

theorem construct_default_error_of_missing (tr : TypeRegistryM) (vi : VariantInfoM)
    (h : variantDefaultsOk tr vi = false) :
    construct_default_enum_variant vi tr = .error .NoDefaultValue := by
  unfold variantDefaultsOk at h
  unfold construct_default_enum_variant
  rcases hs : vi.shape with _ | ts | fs
  · rw [hs] at h
    simp at h
  · rw [hs] at h
    exact defaultsForTypes_error tr ts h
  · rw [hs] at h
    refine defaultsForTypes_error tr (fs.map Prod.snd) ?_
    by_contra hall
    have hall' : (fs.map Prod.snd).all
        (fun t => (get_default_value_for tr t).isSome) = true := by
      revert hall
      cases (fs.map Prod.snd).all (fun t => (get_default_value_for tr t).isSome) <;> simp
    have hfs : fs.all (fun f => (get_default_value_for tr f.2).isSome) = true := by
      simp only [List.all_eq_true, List.mem_map] at hall' ⊢
      intro pr hmem
      exact hall' pr.2 ⟨pr, hmem, rfl⟩
    have h' : fs.all (fun f => (get_default_value_for tr f.2).isSome) = false := h
    rw [hfs] at h'
    simp at h'

/-- Claim C7: whenever the enum cycler produces a new target variant, a
missing default-construction capability for any of its fields makes the
whole call fail with `NoDefaultValue`, the world left untouched (no partial
construction); a unit variant needs no defaults, and a tuple or struct
variant succeeds exactly when every one of its fields has a registered
default. -/
theorem C7_no_default_value (w : WorldM) (tid : TypeId) (e : EntityId)
    (path : List PathSeg) (d : EnumDirection) (wrap : Bool) (vs : List VariantInfoM)
    (i : Nat) (pl : RList) (j : Nat) (vinfo : VariantInfoM)
    (hread : reflect_component_read_path w e tid path = .ok (.enumV vs i pl))
    (hnext : get_next_index_in_direction i vs.length d wrap = .ok (some j))
    (hv : variantAt vs j = some vinfo) :
    (variantDefaultsOk w.registry vinfo = false →
      reflect_component_toggle_enum_variant w tid e path d wrap
        = some (.error .NoDefaultValue, w))
    ∧ (∀ (tr : TypeRegistryM) (vi : VariantInfoM), vi.shape = .unit →
      construct_default_enum_variant vi tr = .ok .nil)
    ∧ (variantDefaultsOk w.registry vinfo = true →
      ∃ pay, construct_default_enum_variant vinfo w.registry = .ok pay) := by
  obtain ⟨erec, reg, root, hent, hreg, hrc, hcomp, hres⟩ :=
    reflect_component_read_path_ok_iff.mp hread
  refine ⟨fun hmiss => ?_, fun tr vi hu => ?_, fun hok => ?_⟩
  · have hg : get_next_enum_variant vs i w.registry d wrap
        = some (.error .NoDefaultValue) := by
      unfold get_next_enum_variant
      rw [hnext]
      simp [hv, construct_default_error_of_missing w.registry vinfo hmiss]
    exact reflect_component_toggle_error hreg hrc hent hcomp hres hg
  · simp [construct_default_enum_variant, hu]
  · exact construct_default_ok_of_defaults w.registry vinfo hok

/-- Claim C7, witness: the concrete forward cycle onto the
default-less variant fails with `NoDefaultValue`, world unchanged. -/
theorem C7_no_default_value_witness :
    reflect_component_toggle_enum_variant wC7 0 1 [.field "state"] .Forward false
      = some (.error .NoDefaultValue, wC7) := by
  have hread : reflect_component_read_path wC7 1 0 [.field "state"]
      = .ok (.enumV vsAC 0 .nil) := by
    simp [wC7, reflect_component_read_path, alistGet, regComponentOnly,
      resolvePath, resolveSeg, rfieldsGet]
  refine (C7_no_default_value wC7 0 1 [.field "state"] .Forward false vsAC 0 .nil 1
    { name := "C", shape := .tuple [7] } hread ?_ ?_).1 ?_
  · simp [vsAC, get_next_index_in_direction]
  · simp [vsAC, variantAt]
  · simp [variantDefaultsOk, get_default_value_for, wC7, alistGet, regComponentOnly]

theorem traitIterGo_once {σ : Type} (tr : TypeRegistryM) (trId : TraitId)
    (ucb : σ → TypeId → RVal → σ) :
    ∀ (l : List (TypeId × RVal)) (s0 : σ),
      traitIterGo tr trId (fun bs tid v => ((true, ucb bs.2 tid v), false)) l (false, s0)
        = (match l.filter (fun c => traitMatch tr trId c.1) with
          | [] => (false, s0)
          | (tid, v) :: _ => (true, ucb s0 tid v))
  | [], s0 => by simp [traitIterGo]
  | (tid, v) :: rest, s0 => by
      by_cases hm : traitMatch tr trId tid
      · simp [traitIterGo, hm, List.filter_cons]
      · simp [traitIterGo, hm, List.filter_cons,
          traitIterGo_once tr trId ucb rest s0]

theorem alistGet_isSome_of_mem_keys {α : Type} :
    ∀ (l : List (Nat × α)) (k : Nat), k ∈ l.map Prod.fst → (alistGet l k).isSome
  | [], k, h => by simp at h
  | (k0, v0) :: rest, k, h => by
      by_cases hk : k0 = k
      · simp [alistGet, hk]
      · have : k ∈ rest.map Prod.fst := by
          simpa [hk, Ne.symm hk] using h
        simp [alistGet, hk, alistGet_isSome_of_mem_keys rest k this]

theorem filter_head_decomp {p : TypeId → Bool} :
    ∀ (comps : List (TypeId × RVal)) (tid : TypeId) (v : RVal)
      (rest : List (TypeId × RVal)),
      comps.filter (fun c => p c.1) = (tid, v) :: rest →
      alistGet comps tid = some v ∧ p tid = true ∧
      ∃ pre post, comps.map Prod.fst = pre ++ tid :: post ∧ ∀ t ∈ pre, p t = false
  | [], tid, v, rest, h => by simp at h
  | (k0, v0) :: comps, tid, v, rest, h => by
      by_cases hm : p k0
      · rw [List.filter_cons_of_pos (by simpa using hm)] at h
        obtain ⟨h1, h2⟩ := List.cons_eq_cons.mp h
        injection h1 with hk hv
        subst hk
        subst hv
        exact ⟨by simp [alistGet], hm, [], comps.map Prod.fst, by simp, by simp⟩
      · rw [List.filter_cons_of_neg (by simpa using hm)] at h
        obtain ⟨hget, hp, pre, post, hmap, hpre⟩ :=
          filter_head_decomp comps tid v rest h
        have hne : ¬ k0 = tid := by
          intro hk
          subst hk
          rw [hp] at hm
          exact hm rfl
        refine ⟨by simp [alistGet, hne, hget], hp, k0 :: pre, post, by simp [hmap], ?_⟩
        intro t ht
        rcases List.mem_cons.mp ht with rfl | ht
        · revert hm
          cases p t <;> simp
        · exact hpre t ht

theorem traitIterMutGo_no_match {σ : Type} (tr : TypeRegistryM) (trId : TraitId)
    (e : EntityId) (cb : σ → TypeId → RVal → σ × RVal × Bool) :
    ∀ (tids : List TypeId) (w : WorldM) (s : σ),
      (∀ t ∈ tids, traitMatch tr trId t = false) →
      traitIterMutGo tr trId e cb tids w s = .ok (s, w)
  | [], w, s, _ => rfl
  | tid :: rest, w, s, h => by
      have hm : traitMatch tr trId tid = false := h tid (by simp)
      simp [traitIterMutGo, hm,
        traitIterMutGo_no_match tr trId e cb rest w s (fun t ht => h t (by simp [ht]))]

theorem traitIterMutGo_first_match {σ : Type} (tr : TypeRegistryM) (trId : TraitId)
    (e : EntityId) (mcb : σ → TypeId → RVal → σ × RVal) (tid : TypeId) (v : RVal) :
    ∀ (pre post : List TypeId) (w : WorldM) (erec : EntityRecord) (s0 : σ),
      (∀ t ∈ pre, traitMatch tr trId t = false) →
      traitMatch tr trId tid = true →
      alistGet w.entities e = some erec →
      alistGet erec.comps tid = some v →
      traitIterMutGo tr trId e
          (fun bs t u => ((true, (mcb bs.2 t u).1), (mcb bs.2 t u).2, false))
          (pre ++ tid :: post) w (false, s0)
        = .ok ((true, (mcb s0 tid v).1), setComponentValue w e tid (mcb s0 tid v).2)
  | [], post, w, erec, s0, hpre, hm, hent, hcomp => by
      simp [traitIterMutGo, hm, hent, hcomp]
  | t0 :: pre, post, w, erec, s0, hpre, hm, hent, hcomp => by
      have hm0 : traitMatch tr trId t0 = false := hpre t0 (by simp)
      simp only [List.cons_append, traitIterMutGo, hm0, Bool.false_eq_true, if_false]
      exact traitIterMutGo_first_match tr trId e mcb tid v pre post w erec s0
        (fun t ht => hpre t (by simp [ht])) hm hent hcomp

/-- Claim C6: the "expect exactly one" trait dispatch, in both its immutable
and mutable variants, invokes the callback on the first matching attached
type only (the result and the single write are those of the first match),
and returns the `EntityDoesNotHaveComponent` error when no attached type
matches. -/
theorem C6_expect_exactly_one {σ σm : Type} (w : WorldM) (e : EntityId) (trId : TraitId)
    (ucb : σ → TypeId → RVal → σ) (s0 : σ)
    (mcb : σm → TypeId → RVal → σm × RVal) (s0m : σm)
    (erec : EntityRecord) (hent : alistGet w.entities e = some erec) :
    (traitMatchingComps w.registry trId erec = [] →
      reflect_trait_once w e trId ucb s0 = .error .EntityDoesNotHaveComponent
      ∧ reflect_trait_mut_expect_once w e trId mcb s0m
          = .error .EntityDoesNotHaveComponent)
    ∧ (∀ tid v restM, traitMatchingComps w.registry trId erec = (tid, v) :: restM →
      reflect_trait_once w e trId ucb s0 = .ok (ucb s0 tid v)
      ∧ reflect_trait_mut_expect_once w e trId mcb s0m
          = .ok ((mcb s0m tid v).1, setComponentValue w e tid (mcb s0m tid v).2)) := by
  constructor
  · intro hzero
    have hz : erec.comps.filter (fun c => traitMatch w.registry trId c.1) = [] := by
      rw [traitMatchingComps] at hzero
      exact hzero
    constructor
    · simp [reflect_trait_once, reflect_trait_iter, hent,
        traitIterGo_once w.registry trId ucb erec.comps s0, hz]
    · have hnom : ∀ t ∈ erec.comps.map Prod.fst, traitMatch w.registry trId t = false := by
        intro t ht
        rcases List.mem_map.mp ht with ⟨⟨t', u⟩, hmem, htt⟩
        cases htt
        by_contra hb
        have : (t', u) ∈ erec.comps.filter
            (fun c => traitMatch w.registry trId c.1) := by
          refine List.mem_filter.mpr ⟨hmem, ?_⟩
          revert hb
          cases traitMatch w.registry trId t' <;> simp
        rw [traitMatchingComps] at hzero
        rw [hzero] at this
        simp at this
      simp [reflect_trait_mut_expect_once, reflect_trait_iter_mut, hent,
        traitIterMutGo_no_match w.registry trId e _ (erec.comps.map Prod.fst) w
          (false, s0m) hnom]
  · intro tid v restM hone
    have hone' : erec.comps.filter (fun c => traitMatch w.registry trId c.1)
        = (tid, v) :: restM := by
      rw [traitMatchingComps] at hone
      exact hone
    constructor
    · simp [reflect_trait_once, reflect_trait_iter, hent,
        traitIterGo_once w.registry trId ucb erec.comps s0, hone']
    · obtain ⟨hget, hp, pre, post, hmap, hpre⟩ := filter_head_decomp erec.comps tid v restM hone'
      simp [reflect_trait_mut_expect_once, reflect_trait_iter_mut, hent, hmap,
        traitIterMutGo_first_match w.registry trId e mcb tid v pre post w erec s0m
          hpre hp hent hget]

/-- Claim C6, witness: on entity `1` the dispatch invokes the callback on
the single matching type `0` (immutably reading `7`, mutably writing `8` to
exactly that component); on entity `4`, with zero matches, it returns the
`EntityDoesNotHaveComponent` error. -/
theorem C6_expect_exactly_one_witness :
    reflect_trait_once wC6 1 3 (fun (_ : Option RVal) _ v => some v) none
      = .ok (some (.i64 7))
    ∧ reflect_trait_mut_expect_once wC6 1 3 (fun (_ : Unit) _ _ => ((), RVal.i64 8)) ()
      = .ok ((), setComponentValue wC6 1 0 (.i64 8))
    ∧ reflect_trait_once wC6 4 3 (fun (_ : Option RVal) _ v => some v) none
      = .error .EntityDoesNotHaveComponent := by
  have hent1 : alistGet wC6.entities 1
      = some { comps := [(2, .boolV true), (0, .i64 7)] } := by
    simp [wC6, alistGet]
  have hent4 : alistGet wC6.entities 4 = some { comps := [(2, .boolV true)] } := by
    simp [wC6, alistGet]
  have hmatch1 : traitMatchingComps wC6.registry 3
      { comps := [(2, .boolV true), (0, .i64 7)] } = [(0, .i64 7)] := by
    simp [traitMatchingComps, traitMatch, wC6, alistGet, regTraitComponent,
      regComponentOnly, List.filter]
  have hmatch4 : traitMatchingComps wC6.registry 3
      { comps := [(2, .boolV true)] } = [] := by
    simp [traitMatchingComps, traitMatch, wC6, alistGet, regTraitComponent,
      regComponentOnly, List.filter]
  obtain ⟨ha, hb⟩ := (C6_expect_exactly_one wC6 1 3 (fun _ _ v => some v) none
    (fun _ _ _ => ((), RVal.i64 8)) () _ hent1).2 0 (.i64 7) [] hmatch1
  refine ⟨ha, hb, ?_⟩
  exact ((C6_expect_exactly_one wC6 4 3 (fun _ _ v => some v) none
    (fun _ _ _ => ((), RVal.i64 8)) () _ hent4).1 hmatch4).1

theorem setComponentValue_registry (w : WorldM) (e : EntityId) (tid : TypeId) (v : RVal) :
    (setComponentValue w e tid v).registry = w.registry := by
  unfold setComponentValue
  cases alistGet w.entities e <;> rfl

theorem setComponentValue_resources (w : WorldM) (e : EntityId) (tid : TypeId) (v : RVal) :
    (setComponentValue w e tid v).resources = w.resources := by
  unfold setComponentValue
  cases alistGet w.entities e <;> rfl

theorem setComponentValue_entities_ne (w : WorldM) (e e' : EntityId) (tid : TypeId)
    (v : RVal) (h : e' ≠ e) :
    alistGet (setComponentValue w e tid v).entities e' = alistGet w.entities e' := by
  unfold setComponentValue
  rcases hent : alistGet w.entities e with _ | erec
  · rfl
  · simp [alistGet_alistSet_ne _ _ _ _ (Ne.symm h)]

theorem componentValue_setComponentValue_same (w : WorldM) (e : EntityId) (tid : TypeId)
    (v u : RVal) (erec : EntityRecord) (hent : alistGet w.entities e = some erec)
    (hcomp : alistGet erec.comps tid = some u) :
    componentValue (setComponentValue w e tid v) e tid = some v := by
  unfold setComponentValue componentValue
  simp [hent, alistGet_alistSet_same _ _ _ _ hent,
    alistGet_alistSet_same _ _ _ _ hcomp]

theorem componentValue_setComponentValue_ne_key (w : WorldM) (e : EntityId)
    (tid t : TypeId) (v : RVal) (h : t ≠ tid) :
    componentValue (setComponentValue w e tid v) e t = componentValue w e t := by
  unfold setComponentValue componentValue
  rcases hent : alistGet w.entities e with _ | erec
  · simp [hent]
  · simp [hent, alistGet_alistSet_same _ _ _ _ hent,
      alistGet_alistSet_ne _ _ _ _ (Ne.symm h)]

theorem componentValue_setComponentValue_isSome (w : WorldM) (e : EntityId)
    (tid t : TypeId) (v : RVal) :
    (componentValue (setComponentValue w e tid v) e t).isSome
      = (componentValue w e t).isSome := by
  unfold setComponentValue componentValue
  rcases hent : alistGet w.entities e with _ | erec
  · simp [hent]
  · simp [hent, alistGet_alistSet_same _ _ _ _ hent, alistGet_alistSet_isSome]

theorem copySharedGo_spec (target source : EntityId) (hne : target ≠ source)
    (srcRec : EntityRecord) :
    ∀ (tids : List TypeId) (w : WorldM),
      alistGet w.entities source = some srcRec →
      (∀ t ∈ tids, ∃ reg, alistGet w.registry.regs t = some reg
        ∧ reg.hasReflectComponent = true) →
      (∀ t ∈ tids, (alistGet srcRec.comps t).isSome) →
      (∀ t ∈ tids, (componentValue w target t).isSome) →
      ∃ w', copySharedGo target source tids w = (.ok (), w')
        ∧ (∀ t ∈ tids, componentValue w' target t = alistGet srcRec.comps t)
        ∧ (∀ t, t ∉ tids → componentValue w' target t = componentValue w target t)
        ∧ (∀ e', e' ≠ target → alistGet w'.entities e' = alistGet w.entities e')
        ∧ w'.registry = w.registry ∧ w'.resources = w.resources
  | [], w, hsrc, hreg, hs, ht => ⟨w, rfl, by simp, fun _ _ => rfl, fun _ _ => rfl, rfl, rfl⟩
  | tid :: rest, w, hsrc, hreg, hs, ht => by
      obtain ⟨reg, hreg0, hrc0⟩ := hreg tid (by simp)
      rcases hsv : alistGet srcRec.comps tid with _ | v
      · exact absurd (hs tid (by simp)) (by simp [hsv])
      rcases htgt : alistGet w.entities target with _ | tgtRec
      · exact absurd (ht tid (by simp)) (by simp [componentValue, htgt])
      rcases htv : alistGet tgtRec.comps tid with _ | tv
      · exact absurd (ht tid (by simp)) (by simp [componentValue, htgt, htv])
      have hw1src : alistGet (setComponentValue w target tid v).entities source
          = some srcRec := by
        rw [setComponentValue_entities_ne w target source tid v (Ne.symm hne)]
        exact hsrc
      have hw1reg : ∀ t ∈ rest, ∃ r, alistGet (setComponentValue w target tid v).registry.regs t
          = some r ∧ r.hasReflectComponent = true := by
        intro t htm
        rw [setComponentValue_registry]
        exact hreg t (by simp [htm])
      have hw1tgt : ∀ t ∈ rest, (componentValue (setComponentValue w target tid v) target t).isSome := by
        intro t htm
        rw [componentValue_setComponentValue_isSome]
        exact ht t (by simp [htm])
      obtain ⟨w', hgo, hin, hout, hents, hr, hrs⟩ :=
        copySharedGo_spec target source hne srcRec rest
          (setComponentValue w target tid v) hw1src hw1reg
          (fun t htm => hs t (by simp [htm])) hw1tgt
      refine ⟨w', ?_, ?_, ?_, ?_, ?_, ?_⟩
      · simp [copySharedGo, hreg0, hrc0, hsrc, hsv, htgt, htv, hgo]
      · intro t htm
        rcases List.mem_cons.mp htm with rfl | htm'
        · by_cases hrest : t ∈ rest
          · rw [hin t hrest, hsv]
          · rw [hout t hrest,
              componentValue_setComponentValue_same w target t v tv tgtRec htgt htv, hsv]
        · exact (hin t htm').trans rfl
      · intro t htm
        have hne1 : t ≠ tid := fun hteq => htm (by simp [hteq])
        have hne2 : t ∉ rest := fun hteq => htm (by simp [hteq])
        rw [hout t hne2, componentValue_setComponentValue_ne_key w target tid t v hne1]
      · intro e' he'
        rw [hents e' he', setComponentValue_entities_ne w target e' tid v he']
      · rw [hr, setComponentValue_registry]
      · rw [hrs, setComponentValue_resources]

theorem setComponentValue_self (w : WorldM) (e : EntityId) (tid : TypeId) (v : RVal)
    (erec : EntityRecord) (hent : alistGet w.entities e = some erec)
    (hcomp : alistGet erec.comps tid = some v) :
    setComponentValue w e tid v = w := by
  unfold setComponentValue
  simp [hent, alistGet_alistSet_self _ _ _ hcomp, alistGet_alistSet_self _ _ _ hent]

theorem copySharedGo_self (e : EntityId) :
    ∀ (tids : List TypeId) (w : WorldM),
      (∀ t ∈ tids, ∃ reg, alistGet w.registry.regs t = some reg
        ∧ reg.hasReflectComponent = true) →
      (∀ t ∈ tids, (componentValue w e t).isSome) →
      copySharedGo e e tids w = (.ok (), w)
  | [], w, _, _ => rfl
  | tid :: rest, w, hreg, ht => by
      obtain ⟨reg, hreg0, hrc0⟩ := hreg tid (by simp)
      rcases hent : alistGet w.entities e with _ | erec
      · exact absurd (ht tid (by simp)) (by simp [componentValue, hent])
      rcases hcomp : alistGet erec.comps tid with _ | v
      · exact absurd (ht tid (by simp)) (by simp [componentValue, hent, hcomp])
      have hself := setComponentValue_self w e tid v erec hent hcomp
      have hrec := copySharedGo_self e rest w (fun t htm => hreg t (by simp [htm]))
        (fun t htm => ht t (by simp [htm]))
      simp [copySharedGo, hreg0, hrc0, hent, hcomp, hself, hrec]

/-- Claim C5 (amended): for every pair of records, provided every shared,
registered, filter-accepted type also carries the whole-value
(`ReflectComponent`) capability, the bulk copy succeeds and copies exactly
those types — each such target value becomes the source's, every other type
on the target is untouched, every other record is unchanged, and the source
record itself is unchanged (when target and source coincide, each value is
merely rewritten with itself). -/
theorem C5_copy_shared_filtered (w : WorldM) (target source : EntityId)
    (type_id_filter : TypeId → Bool)
    (srcRec tgtRec : EntityRecord)
    (hsrc : alistGet w.entities source = some srcRec)
    (htgt : alistGet w.entities target = some tgtRec)
    (hcap : ∀ t ∈ sharedCopyCandidates w srcRec tgtRec type_id_filter,
      ∃ reg, alistGet w.registry.regs t = some reg ∧ reg.hasReflectComponent = true) :
    ∃ w', reflect_copy_shared_component_props w target source type_id_filter
        = (.ok (), w')
      ∧ (∀ t ∈ sharedCopyCandidates w srcRec tgtRec type_id_filter,
          componentValue w' target t = componentValue w source t)
      ∧ (∀ t, t ∉ sharedCopyCandidates w srcRec tgtRec type_id_filter →
          componentValue w' target t = componentValue w target t)
      ∧ (∀ e', e' ≠ target → alistGet w'.entities e' = alistGet w.entities e')
      ∧ alistGet w'.entities source = alistGet w.entities source
      ∧ w'.registry = w.registry ∧ w'.resources = w.resources := by
  have hs : ∀ t ∈ sharedCopyCandidates w srcRec tgtRec type_id_filter,
      (alistGet srcRec.comps t).isSome := by
    intro t htm
    exact alistGet_isSome_of_mem_keys srcRec.comps t
      (List.mem_of_mem_filter htm)
  have ht : ∀ t ∈ sharedCopyCandidates w srcRec tgtRec type_id_filter,
      (componentValue w target t).isSome := by
    intro t htm
    have hp := List.of_mem_filter htm
    simp only [Bool.and_eq_true] at hp
    simpa [componentValue, htgt] using hp.1.1
  by_cases hts : target = source
  · subst hts
    have hrr : srcRec = tgtRec := by
      rw [hsrc] at htgt
      exact Option.some.inj htgt
    subst hrr
    have hgo := copySharedGo_self target
      (sharedCopyCandidates w srcRec srcRec type_id_filter) w hcap ht
    refine ⟨w, ?_, fun t _ => rfl, fun t _ => rfl, fun e' _ => rfl, rfl, rfl, rfl⟩
    simp [reflect_copy_shared_component_props, hsrc, hgo]
  · obtain ⟨w', hgo, hin, hout, hents, hr, hrs⟩ :=
      copySharedGo_spec target source hts srcRec
        (sharedCopyCandidates w srcRec tgtRec type_id_filter) w hsrc hcap hs ht
    refine ⟨w', ?_, ?_, hout, hents, hents source (Ne.symm hts), hr, hrs⟩
    · simp [reflect_copy_shared_component_props, hsrc, htgt, hgo]
    · intro t htm
      rw [hin t htm]
      simp [componentValue, hsrc]

/-- Claim C5, counterexample: with an always-true filter the claim demands
the reflectable shared type `0` be copied (target's `0` should become the
source's `1`); instead the call aborts with `TypeRegistrationInvalidCast`
on the capability-less shared type `5` and the target keeps `2`. -/
theorem C5_counterexample :
    reflect_copy_shared_component_props wC5 1 2 (fun _ => true)
      = (.error .TypeRegistrationInvalidCast, wC5)
    ∧ componentValue wC5 1 0 = some (.i64 2)
    ∧ componentValue wC5 2 0 = some (.i64 1)
    ∧ some (RVal.i64 2) ≠ some (RVal.i64 1) := by
  refine ⟨?_, by simp [componentValue, wC5, alistGet],
    by simp [componentValue, wC5, alistGet], by simp⟩
  simp [reflect_copy_shared_component_props, wC5, alistGet, sharedCopyCandidates,
    copySharedGo, regComponentOnly, regNoCap, List.filter]

/-- Claim C5, witness for the amended statement: the copy succeeds, the
shared reflectable type `0` on the target becomes the source's value, the
target-only type `9` is untouched, and the source record is unchanged. -/
theorem C5_copy_shared_filtered_witness :
    (reflect_copy_shared_component_props wC5b 1 2 (fun _ => true)).1 = .ok ()
    ∧ componentValue (reflect_copy_shared_component_props wC5b 1 2 (fun _ => true)).2 1 0
        = some (.i64 1)
    ∧ componentValue (reflect_copy_shared_component_props wC5b 1 2 (fun _ => true)).2 1 9
        = some (.i64 5)
    ∧ alistGet (reflect_copy_shared_component_props wC5b 1 2 (fun _ => true)).2.entities 2
        = alistGet wC5b.entities 2 := by
  have hsrc : alistGet wC5b.entities 2 = some { comps := [(0, .i64 1), (7, .i64 3)] } := by
    simp [wC5b, alistGet]
  have htgt : alistGet wC5b.entities 1 = some { comps := [(0, .i64 2), (9, .i64 5)] } := by
    simp [wC5b, alistGet]
  have hcands : sharedCopyCandidates wC5b { comps := [(0, .i64 1), (7, .i64 3)] }
      { comps := [(0, .i64 2), (9, .i64 5)] } (fun _ => true) = [0] := by
    simp [sharedCopyCandidates, wC5b, alistGet, List.filter, regComponentOnly]
  have hcap : ∀ t ∈ sharedCopyCandidates wC5b { comps := [(0, .i64 1), (7, .i64 3)] }
      { comps := [(0, .i64 2), (9, .i64 5)] } (fun _ => true),
      ∃ reg, alistGet wC5b.registry.regs t = some reg
        ∧ reg.hasReflectComponent = true := by
    rw [hcands]
    intro t htm
    simp only [List.mem_singleton] at htm
    subst htm
    exact ⟨regComponentOnly, by simp [wC5b, alistGet], rfl⟩
  obtain ⟨w', hcopy, hin, hout, hents, hsrcKeep, _, _⟩ :=
    C5_copy_shared_filtered wC5b 1 2 (fun _ => true)
      { comps := [(0, .i64 1), (7, .i64 3)] } { comps := [(0, .i64 2), (9, .i64 5)] }
      hsrc htgt hcap
  rw [hcopy]
  refine ⟨rfl, ?_, ?_, hsrcKeep⟩
  · rw [hin 0 (by rw [hcands]; simp)]
    simp [componentValue, wC5b, alistGet]
  · rw [hout 9 (by rw [hcands]; simp)]
    simp [componentValue, wC5b, alistGet]
